import Mathlib

/-!
Verification development for the pyMUD client core
(`src/mud_client_app.py`, `src/alias_manager.py`).

The Telnet stream decoder `_parse_telnet_stream_for_display_and_gmcp`, the
GMCP dispatcher `_dispatch_gmcp_data`, the GMCP sender `send_gmcp`, the SGR
style interpreter inside `display_message`, and the `AliasManager` operations
are shallowly embedded below.  Bytes are modelled as `Nat` (each byte of a
Python `bytes` value is in `0..255`), Python strings as `List Char`, and the
JSON values handled by the `json` module as the inductive `Json` (number
values restricted to integers, which covers every payload exercised here;
Python `float` handling is outside the embedding).
-/

namespace PyMUD

/-! ## Telnet protocol constants (`MudClientApp` class attributes) -/

def IAC_B : Nat := 255
def DONT_B : Nat := 254
def DO_B : Nat := 253
def WONT_B : Nat := 252
def WILL_B : Nat := 251
def SB_B : Nat := 250
def SE_B : Nat := 240
def NOP_B : Nat := 249
def GA_B : Nat := 249
def ECHO_B : Nat := 1
def SUPPRESS_GO_AHEAD_B : Nat := 3
def GMCP_B : Nat := 201
def GMCP_DATA_OPTIONS : List Nat := [82, 67, 69]

def STATE_NORMAL : Nat := 0
def STATE_IAC : Nat := 1
def STATE_SB_READ_OPTION : Nat := 2
def STATE_GMCP_SUB : Nat := 3
def STATE_UNKNOWN_SB : Nat := 4

/-! ## Decoder events

A run of the generator `_parse_telnet_stream_for_display_and_gmcp` yields
`(text, is_prompt_signal)` pairs, performs `sock.sendall` writes for
negotiation replies, and schedules `_dispatch_gmcp_data` calls for completed
GMCP sub-negotiations.  All three observable effects are recorded as events,
in program order.  Text fragments are recorded as the raw bytes of
`display_buffer` (the Python code decodes each fragment with
`.decode('utf-8', errors='replace')` just before yielding it). -/

inductive TelnetEvent where
  | text (bytes : List Nat) (is_prompt_signal : Bool)
  | reply (bytes : List Nat)
  | gmcp (payload : List Nat)
deriving DecidableEq, Repr

/-- The fixed negotiation policy of the `WILL/DO/WONT/DONT` branch:
the list of `sendall` writes performed for a complete command+option pair. -/
def negotiationReply (command opt : Nat) : List (List Nat) :=
  if command = WILL_B ∧ opt = GMCP_B then [[IAC_B, DO_B, GMCP_B]]
  else if command = DO_B ∧ opt = SUPPRESS_GO_AHEAD_B then [[IAC_B, WILL_B, SUPPRESS_GO_AHEAD_B]]
  else if command = DO_B ∧ opt = ECHO_B then [[IAC_B, WILL_B, ECHO_B]]
  else []

/-- `decoded_text.endswith('\n') or decoded_text.endswith('\r')` on the
UTF-8 `errors='replace'` decoding of the buffer holds exactly when the final
byte is `0x0A` or `0x0D` (both are ASCII, and no other byte sequence decodes
to a string ending in those characters). -/
def endsWithLineTerminator (bytes : List Nat) : Bool :=
  bytes.getLast? = some 10 || bytes.getLast? = some 13

/-- `if display_buffer: yield display_buffer.decode(...), False`. -/
def flushEvents (display : List Nat) : List TelnetEvent :=
  if display = [] then [] else [TelnetEvent.text display false]

/-- The body of the `while i < len(self.telnet_buffer)` loop of
`_parse_telnet_stream_for_display_and_gmcp`, processing the remaining bytes
`buf` from parser state `state` with sub-negotiation buffer `sub` and pending
`display_buffer` `display`.  Returns the events yielded/performed, the final
parser state, the final sub buffer, and the retained residue
`self.telnet_buffer[i:]`.

`fuel` is decremented once per loop iteration; every iteration consumes at
least one buffered byte, so `fuel = buf.length` (as passed by `feed`) never
runs out and the `0` case is unreachable from `feed`.

Faithful quirks of the source:
* in `STATE_IAC` the command byte is consumed by the in-branch `i += 1` and
  the loop-end `i += 1` advances once more, so every branch of that state
  other than the `WILL/DO/WONT/DONT` one (whose option read re-uses the
  second increment) also consumes the byte following the command;
* an unrecognized command byte in `STATE_IAC` matches no branch, leaving the
  state at `STATE_IAC`;
* a `WILL/DO/WONT/DONT` command with no option byte available rewinds
  (`i -= 1; break`), retaining the command byte with the state still
  `STATE_IAC`;
* in `STATE_GMCP_SUB`/`STATE_UNKNOWN_SB`, an `IAC` as the very last buffered
  byte fails the `i + 1 < len(...)` lookahead and is treated as payload;
* a state value other than the five constants matches no branch and the byte
  is consumed with no effect. -/
def parseLoop (fuel : Nat) (state : Nat) (sub : List Nat) (buf : List Nat)
    (display : List Nat) : List TelnetEvent × Nat × List Nat × List Nat :=
  match fuel, buf with
  | _, [] => (flushEvents display, state, sub, [])
  | 0, b :: rest => (flushEvents display, state, sub, b :: rest)
  | fuel + 1, b :: rest =>
    if state = STATE_NORMAL then
      if b = IAC_B then
        let r := parseLoop fuel STATE_IAC sub rest []
        (flushEvents display ++ r.1, r.2)
      else
        parseLoop fuel state sub rest (display ++ [b])
    else if state = STATE_IAC then
      if b = WILL_B ∨ b = DO_B ∨ b = WONT_B ∨ b = DONT_B then
        match rest with
        | [] => (flushEvents display, state, sub, [b])
        | opt :: rest' =>
          let r := parseLoop fuel STATE_NORMAL sub rest' display
          ((negotiationReply b opt).map TelnetEvent.reply ++ r.1, r.2)
      else if b = SB_B then
        match rest with
        | [] => (flushEvents display, STATE_SB_READ_OPTION, [], [])
        | _ :: rest' => parseLoop fuel STATE_SB_READ_OPTION [] rest' display
      else if b = IAC_B then
        match rest with
        | [] => (flushEvents (display ++ [IAC_B]), STATE_NORMAL, sub, [])
        | _ :: rest' => parseLoop fuel STATE_NORMAL sub rest' (display ++ [IAC_B])
      else if b = SE_B then
        match rest with
        | [] => (flushEvents display, STATE_NORMAL, sub, [])
        | _ :: rest' => parseLoop fuel STATE_NORMAL sub rest' display
      else if b = NOP_B ∨ b = GA_B then
        let evs :=
          if display ≠ [] then
            [TelnetEvent.text display (b = GA_B ∧ ¬ endsWithLineTerminator display)]
          else if b = GA_B then [TelnetEvent.text [] true]
          else []
        match rest with
        | [] => (evs, STATE_NORMAL, sub, [])
        | _ :: rest' =>
          let r := parseLoop fuel STATE_NORMAL sub rest' []
          (evs ++ r.1, r.2)
      else
        match rest with
        | [] => (flushEvents display, state, sub, [])
        | _ :: rest' => parseLoop fuel state sub rest' display
    else if state = STATE_SB_READ_OPTION then
      if b = GMCP_B ∨ b ∈ GMCP_DATA_OPTIONS then
        parseLoop fuel STATE_GMCP_SUB [b] rest display
      else
        parseLoop fuel STATE_UNKNOWN_SB [] rest display
    else if state = STATE_GMCP_SUB then
      if b = IAC_B then
        match rest with
        | [] => (flushEvents display, state, sub ++ [b], [])
        | se :: rest' =>
          if se = SE_B then
            let r := parseLoop fuel STATE_NORMAL [] rest' display
            (TelnetEvent.gmcp sub :: r.1, r.2)
          else
            parseLoop fuel state (sub ++ [b]) (se :: rest') display
      else
        parseLoop fuel state (sub ++ [b]) rest display
    else if state = STATE_UNKNOWN_SB then
      if b = IAC_B then
        match rest with
        | [] => (flushEvents display, state, sub, [])
        | se :: rest' =>
          if se = SE_B then parseLoop fuel STATE_NORMAL [] rest' display
          else parseLoop fuel state sub (se :: rest') display
      else
        parseLoop fuel state sub rest display
    else
      parseLoop fuel state sub rest display

/-- The per-connection decoder state retained between `feed` cycles:
`telnet_parser_state`, `telnet_sub_buffer`, and the unconsumed
`telnet_buffer` residue. -/
structure TelnetConfig where
  telnet_parser_state : Nat
  telnet_sub_buffer : List Nat
  telnet_buffer : List Nat
deriving DecidableEq, Repr

/-- State at `__init__` / on (re)connect. -/
def initialConfig : TelnetConfig :=
  ⟨STATE_NORMAL, [], []⟩

/-- One `feed` cycle of the receive loop: `self.telnet_buffer += chunk`
followed by a full run of `_parse_telnet_stream_for_display_and_gmcp`
(which finally sets `self.telnet_buffer = self.telnet_buffer[i:]`). -/
def feed (cfg : TelnetConfig) (chunk : List Nat) : TelnetConfig × List TelnetEvent :=
  let buf := cfg.telnet_buffer ++ chunk
  let r := parseLoop buf.length cfg.telnet_parser_state cfg.telnet_sub_buffer buf []
  (⟨r.2.1, r.2.2.1, r.2.2.2⟩, r.1)

/-- Feeding a sequence of chunks, accumulating all emitted events. -/
def feedAll (cfg : TelnetConfig) (chunks : List (List Nat)) :
    TelnetConfig × List TelnetEvent :=
  match chunks with
  | [] => (cfg, [])
  | c :: cs =>
    let r := feed cfg c
    let r' := feedAll r.1 cs
    (r'.1, r.2 ++ r'.2)

/-- Concatenation of all emitted text fragments, ignoring prompt-flag
boundaries. -/
def textConcat (events : List TelnetEvent) : List Nat :=
  match events with
  | [] => []
  | TelnetEvent.text bs _ :: rest => bs ++ textConcat rest
  | _ :: rest => textConcat rest

/-- The negotiation reply writes among the events, in order. -/
def replyWrites (events : List TelnetEvent) : List (List Nat) :=
  match events with
  | [] => []
  | TelnetEvent.reply bs :: rest => bs :: replyWrites rest
  | _ :: rest => replyWrites rest

/-- The GMCP payloads forwarded to the dispatcher, in order. -/
def gmcpPayloads (events : List TelnetEvent) : List (List Nat) :=
  match events with
  | [] => []
  | TelnetEvent.gmcp bs :: rest => bs :: gmcpPayloads rest
  | _ :: rest => gmcpPayloads rest

/-! ## AliasManager (`src/alias_manager.py`)

The alias table (a Python `dict` with string keys, unique, insertion
ordered) is modelled as an association list without duplicate-key use. -/

abbrev AliasTable := List (List Char × List Char)

/-- Python `key in d` / `d[key]` on the alias dict. -/
def lookupAlias : AliasTable → List Char → Option (List Char)
  | [], _ => none
  | (k, v) :: rest, key => if k = key then some v else lookupAlias rest key

/-- `user_input.split(' ', 1)`, returning `(parts[0], parts[1] if len(parts) > 1 else '')`. -/
def pySplitOnceSpace : List Char → List Char × List Char
  | [] => ([], [])
  | c :: rest =>
    if c = ' ' then ([], rest)
    else
      let r := pySplitOnceSpace rest
      (c :: r.1, r.2)

/-- `AliasManager.process_input`. -/
def process_input (aliases : AliasTable) (user_input : List Char) : List Char :=
  if user_input = [] then []
  else
    match lookupAlias aliases user_input with
    | some replacement => replacement
    | none =>
      let parts := pySplitOnceSpace user_input
      match lookupAlias aliases parts.1 with
      | some expanded => if parts.2 ≠ [] then expanded ++ ' ' :: parts.2 else expanded
      | none => user_input

/-- `self.aliases[command] = replacement` on a dict: replace in place if the
key is present, else append at the end. -/
def dictInsert : AliasTable → List Char → List Char → AliasTable
  | [], k, v => [(k, v)]
  | (k', v') :: rest, k, v =>
    if k' = k then (k', v) :: rest else (k', v') :: dictInsert rest k v

/-- Result of `AliasManager.add_alias`: the returned boolean, the alias
table afterwards, and whether `_save_aliases` was called. -/
structure AddAliasResult where
  returnValue : Bool
  aliases : AliasTable
  saved : Bool
deriving DecidableEq, Repr

/-- `AliasManager.add_alias` (`if not command or not replacement` rejects
exactly the empty strings). -/
def add_alias (aliases : AliasTable) (command replacement : List Char) : AddAliasResult :=
  if command = [] ∨ replacement = [] then ⟨false, aliases, false⟩
  else ⟨true, dictInsert aliases command replacement, true⟩

/-! ## SGR style interpretation (`display_message`, lines 503-528) -/

/-- The `ANSI_COLOR_MAP` class dict. -/
def ANSI_COLOR_MAP (code : Nat) : Option String :=
  if code = 30 then some "black_fg" else if code = 31 then some "red_fg"
  else if code = 32 then some "green_fg" else if code = 33 then some "yellow_fg"
  else if code = 34 then some "blue_fg" else if code = 35 then some "magenta_fg"
  else if code = 36 then some "cyan_fg" else if code = 37 then some "white_fg"
  else if code = 90 then some "gray_fg" else if code = 91 then some "bright_red_fg"
  else if code = 92 then some "bright_green_fg" else if code = 93 then some "bright_yellow_fg"
  else if code = 94 then some "bright_blue_fg" else if code = 95 then some "bright_magenta_fg"
  else if code = 96 then some "bright_cyan_fg" else if code = 97 then some "bright_white_fg"
  else if code = 40 then some "black_bg" else if code = 41 then some "red_bg"
  else if code = 42 then some "green_bg" else if code = 43 then some "yellow_bg"
  else if code = 44 then some "blue_bg" else if code = 45 then some "magenta_bg"
  else if code = 46 then some "cyan_bg" else if code = 47 then some "white_bg"
  else if code = 100 then some "gray_bg" else if code = 101 then some "bright_red_bg"
  else if code = 102 then some "bright_green_bg" else if code = 103 then some "bright_yellow_bg"
  else if code = 104 then some "bright_blue_bg" else if code = 105 then some "bright_magenta_bg"
  else if code = 106 then some "bright_cyan_bg" else if code = 107 then some "bright_white_bg"
  else none

/-- The running style register: `current_fg_tag`, `current_bg_tag`,
`is_bold`, `is_underline`. -/
structure StyleState where
  current_fg_tag : String
  current_bg_tag : String
  is_bold : Bool
  is_underline : Bool
deriving DecidableEq, Repr

/-- The values set in `__init__` (lines 263-266). -/
def initialStyle : StyleState :=
  ⟨"default_fg", "default_bg", false, false⟩

/-- The `for code in codes` body of `display_message`. -/
def applyCode (st : StyleState) (code : Nat) : StyleState :=
  if code = 0 then ⟨"default_fg", "default_bg", false, false⟩
  else if code = 1 then { st with is_bold := true }
  else if code = 4 then { st with is_underline := true }
  else if code = 22 then { st with is_bold := false }
  else if code = 24 then { st with is_underline := false }
  else if (30 ≤ code ∧ code ≤ 37) ∨ (90 ≤ code ∧ code ≤ 97) then
    { st with current_fg_tag := (ANSI_COLOR_MAP code).getD "default_fg" }
  else if code = 39 then { st with current_fg_tag := "default_fg" }
  else if (40 ≤ code ∧ code ≤ 47) ∨ (100 ≤ code ∧ code ≤ 107) then
    { st with current_bg_tag := (ANSI_COLOR_MAP code).getD "default_bg" }
  else if code = 49 then { st with current_bg_tag := "default_bg" }
  else st

/-- Applying a whole sequence of SGR parameter codes in order. -/
def applyCodes (st : StyleState) (codes : List Nat) : StyleState :=
  codes.foldl applyCode st

/-! ## JSON values (`json` module as used by the client)

Values are the JSON-serializable Python trees exchanged over GMCP:
`None`/`bool`/`int`/`str`/`list`/`dict`.  Numbers are restricted to
integers (Python `float` is outside the embedding; every payload in this
program uses integers).  Strings are Unicode scalar sequences (`List Char`).
The element and member lists are separate inductives so that all recursions
below are structural. -/

def lbrace : Char := Char.ofNat 123
def rbrace : Char := Char.ofNat 125

mutual
inductive Json where
  | null
  | bool (b : Bool)
  | num (n : Int)
  | str (s : List Char)
  | arr (elems : JsonElems)
  | obj (members : JsonMembers)
deriving DecidableEq, Repr
inductive JsonElems where
  | nil
  | cons (v : Json) (rest : JsonElems)
deriving DecidableEq, Repr
inductive JsonMembers where
  | nil
  | cons (k : List Char) (v : Json) (rest : JsonMembers)
deriving DecidableEq, Repr
end

/-! ## Serialization: `json.dumps(data, separators=(',', ':'))`

Compact separators, default `ensure_ascii=True`: characters outside
`0x20..0x7E` are `\uXXXX`-escaped (astral characters as a surrogate pair),
the two-character shorthands are used for the usual control characters. -/

def decDigitChar (d : Nat) : Char :=
  if d = 0 then '0' else if d = 1 then '1' else if d = 2 then '2'
  else if d = 3 then '3' else if d = 4 then '4' else if d = 5 then '5'
  else if d = 6 then '6' else if d = 7 then '7' else if d = 8 then '8' else '9'

def hexDigitChar (d : Nat) : Char :=
  if d < 10 then decDigitChar d
  else if d = 10 then 'a' else if d = 11 then 'b' else if d = 12 then 'c'
  else if d = 13 then 'd' else if d = 14 then 'e' else 'f'

/-- Decimal digits of a positive number, most significant first; `fuel ≥ m`
suffices (the digit count is at most `m`). -/
def natDigitsAux : Nat → Nat → List Char
  | 0, _ => []
  | fuel + 1, m => if m = 0 then [] else natDigitsAux fuel (m / 10) ++ [decDigitChar (m % 10)]

/-- Decimal digits of a natural number, most significant first (`str(n)`). -/
def natToChars (m : Nat) : List Char :=
  if m = 0 then ['0'] else natDigitsAux m m

/-- `str(n)` for a Python `int`. -/
def intToChars (n : Int) : List Char :=
  if n < 0 then '-' :: natToChars n.natAbs else natToChars n.natAbs

/-- `\uXXXX` escape (lowercase hex), for `n < 0x10000`. -/
def uEscape (n : Nat) : List Char :=
  ['\\', 'u', hexDigitChar (n / 4096 % 16), hexDigitChar (n / 256 % 16),
    hexDigitChar (n / 16 % 16), hexDigitChar (n % 16)]

def escapeChar (c : Char) : List Char :=
  if c = '\\' then ['\\', '\\']
  else if c = '"' then ['\\', '"']
  else if c.toNat = 8 then ['\\', 'b']
  else if c.toNat = 9 then ['\\', 't']
  else if c.toNat = 10 then ['\\', 'n']
  else if c.toNat = 12 then ['\\', 'f']
  else if c.toNat = 13 then ['\\', 'r']
  else if c.toNat < 32 ∨ 126 < c.toNat then
    if c.toNat < 65536 then uEscape c.toNat
    else uEscape (55296 + (c.toNat - 65536) / 1024) ++ uEscape (56320 + (c.toNat - 65536) % 1024)
  else [c]

def escapeString : List Char → List Char
  | [] => []
  | c :: rest => escapeChar c ++ escapeString rest

/-- A serialized JSON string literal. -/
def quoteString (s : List Char) : List Char :=
  '"' :: escapeString s ++ ['"']

mutual
def dumps : Json → List Char
  | .null => "null".data
  | .bool true => "true".data
  | .bool false => "false".data
  | .num n => intToChars n
  | .str s => quoteString s
  | .arr es => '[' :: dumpsElems es ++ [']']
  | .obj ms => lbrace :: dumpsMembers ms ++ [rbrace]
termination_by structural j => j
def dumpsElems : JsonElems → List Char
  | .nil => []
  | .cons v rest => dumps v ++ dumpsElemsRest rest
termination_by structural es => es
def dumpsElemsRest : JsonElems → List Char
  | .nil => []
  | .cons v rest => ',' :: dumps v ++ dumpsElemsRest rest
termination_by structural es => es
def dumpsMembers : JsonMembers → List Char
  | .nil => []
  | .cons k v rest => quoteString k ++ ':' :: dumps v ++ dumpsMembersRest rest
termination_by structural ms => ms
def dumpsMembersRest : JsonMembers → List Char
  | .nil => []
  | .cons k v rest => ',' :: quoteString k ++ ':' :: dumps v ++ dumpsMembersRest rest
termination_by structural ms => ms
end

/-! ## Parsing: `json.loads`

Recursive-descent over the character list, following the `json` module's
grammar: the four whitespace characters, exact keyword literals, strict
strings (raw control characters rejected, the standard escapes, `\uXXXX`
with surrogate-pair recombination), and integer numerals
(`0|[1-9][0-9]*` with optional leading `-`; a fractional or exponent suffix
produces a Python `float`, which is outside the embedding and makes the
modelled parser fail).  `fuel` is decremented on every nested parse call;
`jsonLoads` passes `length + 1`, which the round-trip theorems show is
sufficient on serializer output. -/

def isJsonWs (c : Char) : Bool :=
  c = ' ' || c = '\t' || c = '\n' || c = '\r'

def skipWs (cs : List Char) : List Char :=
  cs.dropWhile isJsonWs

def isDecDigit (c : Char) : Bool :=
  '0' ≤ c && c ≤ '9'

def digitVal (c : Char) : Nat := c.toNat - 48

/-- Value of a most-significant-first decimal digit string. -/
def charsToNat (ds : List Char) : Nat :=
  ds.foldl (fun a c => 10 * a + digitVal c) 0

def hexVal (c : Char) : Option Nat :=
  if isDecDigit c then some (digitVal c)
  else if 'a' ≤ c && c ≤ 'f' then some (c.toNat - 87)
  else if 'A' ≤ c && c ≤ 'F' then some (c.toNat - 55)
  else none

def escMap (e : Char) : Option Char :=
  if e = '"' then some '"'
  else if e = '\\' then some '\\'
  else if e = '/' then some '/'
  else if e = 'b' then some (Char.ofNat 8)
  else if e = 'f' then some (Char.ofNat 12)
  else if e = 'n' then some (Char.ofNat 10)
  else if e = 'r' then some (Char.ofNat 13)
  else if e = 't' then some (Char.ofNat 9)
  else none

/-!
String-literal scanning after the opening quote, split into three mutually
recursive pieces mirroring the `json` scanner: the main body, the `\uXXXX`
escape, and the speculative low-surrogate peek performed after a high
surrogate (Python recombines a valid pair, keeps a lone surrogate
otherwise, and rejects a malformed `\uXXXX` even during the peek).  A lone
surrogate (which a Python `str` can carry but a Unicode scalar cannot)
falls back to `Char.ofNat`'s default; it is unreachable from serializer
output.  Every recursive call consumes at least one input character and
one unit of fuel, so `fuel ≥ input length` never runs out. -/
mutual
def parseStringBody : Nat → List Char → Option (List Char × List Char)
  | 0, _ => none
  | _ + 1, [] => none
  | fuel + 1, c :: rest =>
    if c = '"' then some ([], rest)
    else if c = '\\' then
      match rest with
      | [] => none
      | e :: rest1 =>
        if e = 'u' then parseUEscape fuel rest1
        else
          match escMap e with
          | some ec => (parseStringBody fuel rest1).map (fun r => (ec :: r.1, r.2))
          | none => none
    else if c.toNat < 32 then none
    else (parseStringBody fuel rest).map (fun r => (c :: r.1, r.2))
termination_by structural fuel _ => fuel
def parseUEscape : Nat → List Char → Option (List Char × List Char)
  | 0, _ => none
  | fuel + 1, cs =>
    match cs with
    | h1 :: h2 :: h3 :: h4 :: rest2 =>
      match hexVal h1, hexVal h2, hexVal h3, hexVal h4 with
      | some a, some b, some c1, some d =>
        let n := 4096 * a + 256 * b + 16 * c1 + d
        if 55296 ≤ n ∧ n ≤ 56319 then parseHighSurrogate fuel n rest2
        else (parseStringBody fuel rest2).map (fun r => (Char.ofNat n :: r.1, r.2))
      | _, _, _, _ => none
    | _ => none
termination_by structural fuel _ => fuel
def parseHighSurrogate : Nat → Nat → List Char → Option (List Char × List Char)
  | 0, _, _ => none
  | fuel + 1, n, cs =>
    match cs with
    | u1 :: u2 :: g1 :: g2 :: g3 :: g4 :: rest3 =>
      if u1 = '\\' ∧ u2 = 'u' then
        match hexVal g1, hexVal g2, hexVal g3, hexVal g4 with
        | some a1, some b1, some c2, some d1 =>
          let m := 4096 * a1 + 256 * b1 + 16 * c2 + d1
          if 56320 ≤ m ∧ m ≤ 57343 then
            (parseStringBody fuel rest3).map (fun r =>
              (Char.ofNat (65536 + 1024 * (n - 55296) + (m - 56320)) :: r.1, r.2))
          else
            (parseStringBody fuel (u1 :: u2 :: g1 :: g2 :: g3 :: g4 :: rest3)).map
              (fun r => (Char.ofNat n :: r.1, r.2))
        | _, _, _, _ => none
      else
        (parseStringBody fuel (u1 :: u2 :: g1 :: g2 :: g3 :: g4 :: rest3)).map
          (fun r => (Char.ofNat n :: r.1, r.2))
    | _ => (parseStringBody fuel cs).map (fun r => (Char.ofNat n :: r.1, r.2))
termination_by structural fuel _ _ => fuel
end

/-- The integer part `0|[1-9][0-9]*`. -/
def parseNatPart : List Char → Option (Nat × List Char)
  | [] => none
  | c :: rest =>
    if c = '0' then some (0, rest)
    else if isDecDigit c then
      some (charsToNat (c :: rest.takeWhile isDecDigit), rest.dropWhile isDecDigit)
    else none

/-- A following `.`/`e`/`E` would make the numeral a `float`. -/
def numTailOk (cs : List Char) : Bool :=
  match cs with
  | [] => true
  | c :: _ => ¬ (c = '.' || c = 'e' || c = 'E')

def parseNumber (cs : List Char) : Option (Json × List Char) :=
  match cs with
  | [] => none
  | c :: rest =>
    if c = '-' then
      match parseNatPart rest with
      | some (m, r) => if numTailOk r then some (Json.num (-(m : Int)), r) else none
      | none => none
    else
      match parseNatPart cs with
      | some (m, r) => if numTailOk r then some (Json.num (m : Int), r) else none
      | none => none

mutual
def parseValue : Nat → List Char → Option (Json × List Char)
  | 0, _ => none
  | _ + 1, [] => none
  | fuel + 1, c :: rest =>
    if c = lbrace then
      match skipWs rest with
      | [] => none
      | d :: r2 =>
        if d = rbrace then some (Json.obj .nil, r2)
        else
          match parseMembers fuel (d :: r2) with
          | some (ms, r) => some (Json.obj ms, r)
          | none => none
    else if c = '[' then
      match skipWs rest with
      | [] => none
      | d :: r2 =>
        if d = ']' then some (Json.arr .nil, r2)
        else
          match parseElems fuel (d :: r2) with
          | some (es, r) => some (Json.arr es, r)
          | none => none
    else if c = '"' then
      match parseStringBody rest.length rest with
      | some (s, r) => some (Json.str s, r)
      | none => none
    else if c = 'n' then
      match rest with
      | 'u' :: 'l' :: 'l' :: r => some (Json.null, r)
      | _ => none
    else if c = 't' then
      match rest with
      | 'r' :: 'u' :: 'e' :: r => some (Json.bool true, r)
      | _ => none
    else if c = 'f' then
      match rest with
      | 'a' :: 'l' :: 's' :: 'e' :: r => some (Json.bool false, r)
      | _ => none
    else if c = '-' || isDecDigit c then parseNumber (c :: rest)
    else none
def parseElems : Nat → List Char → Option (JsonElems × List Char)
  | 0, _ => none
  | fuel + 1, cs =>
    match parseValue fuel cs with
    | some (v, r) =>
      match skipWs r with
      | [] => none
      | d :: r2 =>
        if d = ']' then some (JsonElems.cons v .nil, r2)
        else if d = ',' then
          match parseElems fuel (skipWs r2) with
          | some (es, r3) => some (JsonElems.cons v es, r3)
          | none => none
        else none
    | none => none
def parseMembers : Nat → List Char → Option (JsonMembers × List Char)
  | 0, _ => none
  | fuel + 1, cs =>
    match cs with
    | [] => none
    | c :: rest =>
      if c = '"' then
        match parseStringBody rest.length rest with
        | some (k, r) =>
          match skipWs r with
          | [] => none
          | d :: r2 =>
            if d = ':' then
              match parseValue fuel (skipWs r2) with
              | some (v, r3) =>
                match skipWs r3 with
                | [] => none
                | e :: r5 =>
                  if e = rbrace then some (JsonMembers.cons k v .nil, r5)
                  else if e = ',' then
                    match parseMembers fuel (skipWs r5) with
                    | some (ms, r6) => some (JsonMembers.cons k v ms, r6)
                    | none => none
                  else none
              | none => none
            else none
        | none => none
      else none
end

/-- `json.loads`: leading whitespace skipped, one document, and only
whitespace may follow (`Extra data` otherwise). -/
def jsonLoads (cs : List Char) : Option Json :=
  match parseValue (cs.length + 1) (skipWs cs) with
  | some (v, r) => if skipWs r = [] then some v else none
  | none => none

/-! ## GMCP codec (`_dispatch_gmcp_data`, `send_gmcp`) -/

/-- The character set `str.strip()` removes: CPython's
`Py_UNICODE_ISSPACE`, i.e. the ASCII whitespace `\t`/`\n`/`\v`/`\f`/`\r`
(9-13) and space (32), the separators `\x1c`-`\x1f`, next line `\x85`,
no-break space `\xa0`, ogham space mark U+1680, the en-quad to
hair-space range U+2000-U+200A, line separator U+2028, paragraph
separator U+2029, narrow no-break space U+202F, medium mathematical
space U+205F, and ideographic space U+3000. -/
def isPyWs (c : Char) : Bool :=
  (9 ≤ c.toNat && c.toNat ≤ 13) || (28 ≤ c.toNat && c.toNat ≤ 31)
    || c.toNat = 32 || c.toNat = 133 || c.toNat = 160 || c.toNat = 5760
    || (8192 ≤ c.toNat && c.toNat ≤ 8202) || c.toNat = 8232
    || c.toNat = 8233 || c.toNat = 8239 || c.toNat = 8287 || c.toNat = 12288

def pyLstrip (cs : List Char) : List Char :=
  cs.dropWhile isPyWs

def pyRstrip (cs : List Char) : List Char :=
  (cs.reverse.dropWhile isPyWs).reverse

def pyStrip (cs : List Char) : List Char :=
  pyLstrip (pyRstrip cs)

/-- `payload.find(' ')` with the two slices: `payload[:idx]` and
`payload[idx:]` (the second still starts with the space); `none` when no
space occurs. -/
def splitAtFirstSpace : List Char → Option (List Char × List Char)
  | [] => none
  | c :: rest =>
    if c = ' ' then some ([], c :: rest)
    else
      match splitAtFirstSpace rest with
      | some (before, fromSpace) => some (c :: before, fromSpace)
      | none => none

/-- The `(package_name, json_data)` computed by `_dispatch_gmcp_data`:
strip the message, split at the first space, strip and parse the remainder
as JSON; `json_data` stays the empty dict when there is no space, when the
remainder is empty, and when `json.loads` raises. -/
def gmcpDecode (gmcp_string : List Char) : List Char × Json :=
  let payload := pyStrip gmcp_string
  match splitAtFirstSpace payload with
  | none => (payload, Json.obj .nil)
  | some (package_name, fromSpace) =>
    let json_string := pyStrip fromSpace
    if json_string = [] then (package_name, Json.obj .nil)
    else
      match jsonLoads json_string with
      | some v => (package_name, v)
      | none => (package_name, Json.obj .nil)

/-- The dispatch loop `for listener in self.gmcp_listeners`: every listener
is called once, in order, with the same `(package_name, json_data)`; the
per-listener `try/except` confines a listener's failure (modelled as an
`Except` result) to its own entry, so later listeners still run and no
exception escapes.  The returned list records each call's arguments and
outcome. -/
def dispatchGmcp (listeners : List (List Char → Json → Except (List Char) Unit))
    (gmcp_string : List Char) : List ((List Char × Json) × Except (List Char) Unit) :=
  let pd := gmcpDecode gmcp_string
  listeners.map (fun listener => ((pd.1, pd.2), listener pd.1 pd.2))

/-- The `gmcp_content` string built by `send_gmcp` before UTF-8 encoding:
`f"{package_name} {payload_data}"`, where `payload_data` is the compact
serialization, or the empty string when `data` is `None`. -/
def send_gmcp_content (package_name : List Char) (data : Json) : List Char :=
  let payload_data := if data = Json.null then [] else dumps data
  package_name ++ ' ' :: payload_data

/-- `bytes.decode('latin-1')`: byte `b` becomes the character with code
point `b` (total on `0..255`, so `errors='replace'` never fires). -/
def latin1Decode (bytes : List Nat) : List Char :=
  bytes.map Char.ofNat

/-! ## Parser fuel accounting

`jfuel v` bounds the parse-call fuel needed to re-read `dumps v`; the
round-trip theorems show `length + 1` (the fuel `jsonLoads` passes) always
dominates it. -/

mutual
def jfuel : Json → Nat
  | .null => 1
  | .bool _ => 1
  | .num _ => 1
  | .str _ => 1
  | .arr es => 1 + efuel es
  | .obj ms => 1 + mfuel ms
termination_by structural j => j
def efuel : JsonElems → Nat
  | .nil => 0
  | .cons v rest => 1 + jfuel v + efuel rest
termination_by structural es => es
def mfuel : JsonMembers → Nat
  | .nil => 0
  | .cons _ v rest => 1 + jfuel v + mfuel rest
termination_by structural ms => ms
end

/-- A separator-safe continuation for a serialized numeral: the next
character (if any) is no digit and no `.`/`e`/`E`, so the numeral's
greedy scan stops exactly at the boundary. -/
def sepSafe (rest : List Char) : Bool :=
  match rest with
  | [] => true
  | c :: _ => !isDecDigit c && !(c = '.' || c = 'e' || c = 'E')

/-! ## Helper lemmas -/

theorem decDigitChar_decDigit (d : Nat) : isDecDigit (decDigitChar d) = true := by
  unfold decDigitChar
  split_ifs <;> decide

theorem decDigitChar_not_jsonWs (d : Nat) : isJsonWs (decDigitChar d) = false := by
  unfold decDigitChar
  split_ifs <;> decide

theorem decDigitChar_not_pyWs (d : Nat) : isPyWs (decDigitChar d) = false := by
  unfold decDigitChar
  split_ifs <;> decide

theorem digitVal_decDigitChar (d : Nat) (hd : d < 10) :
    digitVal (decDigitChar d) = d := by
  interval_cases d <;> decide

theorem decDigitChar_ne_zero_char (d : Nat) (h0 : d ≠ 0) (hd : d < 10) :
    decDigitChar d ≠ '0' := by
  interval_cases d <;> simp_all <;> decide

theorem hexVal_hexDigitChar (d : Nat) (hd : d < 16) :
    hexVal (hexDigitChar d) = some d := by
  interval_cases d <;> decide

theorem natDigitsAux_zero (fuel : Nat) : natDigitsAux fuel 0 = [] := by
  cases fuel <;> simp [natDigitsAux]

theorem natDigitsAux_all_digits (fuel : Nat) :
    ∀ m c, c ∈ natDigitsAux fuel m → isDecDigit c = true := by
  induction fuel with
  | zero => intro m c hc; simp [natDigitsAux] at hc
  | succ fuel ih =>
    intro m c hc
    by_cases hm : m = 0
    · simp [natDigitsAux, hm] at hc
    · simp only [natDigitsAux, if_neg hm, List.mem_append, List.mem_singleton] at hc
      rcases hc with hc | hc
      · exact ih _ _ hc
      · subst hc; exact decDigitChar_decDigit _

theorem charsToNat_append_one (xs : List Char) (c : Char) :
    charsToNat (xs ++ [c]) = 10 * charsToNat xs + digitVal c := by
  simp [charsToNat, List.foldl_append]

theorem charsToNat_natDigitsAux (fuel : Nat) :
    ∀ m, m ≤ fuel → charsToNat (natDigitsAux fuel m) = m := by
  induction fuel with
  | zero =>
    intro m hm
    interval_cases m
    simp [natDigitsAux, charsToNat]
  | succ fuel ih =>
    intro m hm
    by_cases hm0 : m = 0
    · simp [natDigitsAux, hm0, charsToNat]
    · have hdiv : m / 10 ≤ fuel := by
        have : m / 10 < m := Nat.div_lt_self (Nat.pos_of_ne_zero hm0) (by norm_num)
        omega
      simp only [natDigitsAux, if_neg hm0, charsToNat_append_one, ih _ hdiv,
        digitVal_decDigitChar _ (Nat.mod_lt m (by norm_num))]
      omega

theorem natDigitsAux_shape (fuel : Nat) :
    ∀ m, 0 < m → m ≤ fuel →
      ∃ d ds, natDigitsAux fuel m = decDigitChar d :: ds ∧ d ≠ 0 ∧ d < 10 := by
  induction fuel with
  | zero => intro m hm hle; omega
  | succ fuel ih =>
    intro m hm hle
    have hm0 : m ≠ 0 := by omega
    by_cases hq : m / 10 = 0
    · have hlt : m < 10 := by omega
      refine ⟨m % 10, [], ?_, ?_, Nat.mod_lt m (by norm_num)⟩
      · simp [natDigitsAux, if_neg hm0, hq, natDigitsAux_zero]
      · omega
    · have hdiv : m / 10 ≤ fuel := by
        have : m / 10 < m := Nat.div_lt_self (Nat.pos_of_ne_zero hm0) (by norm_num)
        omega
      obtain ⟨d, ds, heq, hd0, hd10⟩ := ih (m / 10) (Nat.pos_of_ne_zero hq) hdiv
      exact ⟨d, ds ++ [decDigitChar (m % 10)], by simp [natDigitsAux, if_neg hm0, heq], hd0, hd10⟩

theorem takeWhile_append_of_all {p : Char → Bool} (xs ys : List Char)
    (h : ∀ x ∈ xs, p x = true) :
    (xs ++ ys).takeWhile p = xs ++ ys.takeWhile p := by
  induction xs with
  | nil => simp
  | cons x t ih =>
    have hx := h x (by simp)
    simp [List.takeWhile_cons, hx, ih fun a ha => h a (by simp [ha])]

theorem dropWhile_append_of_all {p : Char → Bool} (xs ys : List Char)
    (h : ∀ x ∈ xs, p x = true) :
    (xs ++ ys).dropWhile p = ys.dropWhile p := by
  induction xs with
  | nil => simp
  | cons x t ih =>
    have hx := h x (by simp)
    simp [List.dropWhile_cons, hx, ih fun a ha => h a (by simp [ha])]

theorem takeWhile_not_head (p : Char → Bool) (ys : List Char)
    (h : ∀ c, ys.head? = some c → p c = false) : ys.takeWhile p = [] := by
  cases ys with
  | nil => rfl
  | cons c t => simp [List.takeWhile_cons, h c rfl]

theorem dropWhile_not_head (p : Char → Bool) (ys : List Char)
    (h : ∀ c, ys.head? = some c → p c = false) : ys.dropWhile p = ys := by
  cases ys with
  | nil => rfl
  | cons c t => simp [List.dropWhile_cons, h c rfl]

theorem sepSafe_head_not_digit (rest : List Char) (h : sepSafe rest = true) :
    ∀ c, rest.head? = some c → isDecDigit c = false := by
  intro c hc
  cases rest with
  | nil => simp at hc
  | cons r t =>
    simp at hc
    subst hc
    simp [sepSafe] at h
    exact h.1

theorem parseNatPart_natToChars (m : Nat) (rest : List Char) (hsafe : sepSafe rest = true) :
    parseNatPart (natToChars m ++ rest) = some (m, rest) := by
  by_cases hm : m = 0
  · subst hm
    simp [natToChars, parseNatPart]
  · obtain ⟨d, ds, heq, hd0, hd10⟩ := natDigitsAux_shape m m (Nat.pos_of_ne_zero hm) le_rfl
    have hds : ∀ c ∈ ds, isDecDigit c = true := by
      intro c hc
      exact natDigitsAux_all_digits m m c (by simp [heq, hc])
    have htake : (ds ++ rest).takeWhile isDecDigit = ds := by
      rw [takeWhile_append_of_all ds rest hds,
        takeWhile_not_head isDecDigit rest (sepSafe_head_not_digit rest hsafe)]
      simp
    have hdrop : (ds ++ rest).dropWhile isDecDigit = rest := by
      rw [dropWhile_append_of_all ds rest hds,
        dropWhile_not_head isDecDigit rest (sepSafe_head_not_digit rest hsafe)]
    have hval : charsToNat (decDigitChar d :: ds) = m := by
      rw [← heq]
      exact charsToNat_natDigitsAux m m le_rfl
    simp only [natToChars, if_neg hm, heq, List.cons_append, parseNatPart,
      if_neg (decDigitChar_ne_zero_char d hd0 hd10), decDigitChar_decDigit, if_pos rfl,
      htake, hdrop, hval]
    simp

theorem numTailOk_of_sepSafe (rest : List Char) (h : sepSafe rest = true) :
    numTailOk rest = true := by
  cases rest with
  | nil => rfl
  | cons c t =>
    simp [sepSafe] at h
    simp [numTailOk, h.2]

theorem skipWs_cons (c : Char) (l : List Char) (hc : isJsonWs c = false) :
    skipWs (c :: l) = c :: l := by
  simp [skipWs, List.dropWhile_cons, hc]

theorem jfuel_pos (v : Json) : 1 ≤ jfuel v := by
  cases v <;> simp [jfuel]

theorem efuel_pos (es : JsonElems) (h : es ≠ JsonElems.nil) : 1 ≤ efuel es := by
  cases es with
  | nil => exact absurd rfl h
  | cons v rest =>
    simp only [efuel]
    omega

theorem mfuel_pos (ms : JsonMembers) (h : ms ≠ JsonMembers.nil) : 1 ≤ mfuel ms := by
  cases ms with
  | nil => exact absurd rfl h
  | cons k v rest =>
    simp only [mfuel]
    omega

theorem intToChars_head (n : Int) :
    ∃ c t, intToChars n = c :: t ∧ (c = '-' ∨ isDecDigit c = true) := by
  by_cases hneg : n < 0
  · exact ⟨'-', natToChars n.natAbs, by simp [intToChars, hneg], Or.inl rfl⟩
  · by_cases hz : n.natAbs = 0
    · exact ⟨'0', [], by simp [intToChars, hneg, natToChars, hz], Or.inr (by decide)⟩
    · obtain ⟨d, ds, heq, -, -⟩ := natDigitsAux_shape n.natAbs n.natAbs
        (Nat.pos_of_ne_zero hz) le_rfl
      exact ⟨decDigitChar d, ds, by simp [intToChars, hneg, natToChars, hz, heq],
        Or.inr (decDigitChar_decDigit d)⟩

theorem digit_ne_of_not_digit {c x : Char} (hc : isDecDigit c = true)
    (hx : isDecDigit x = false) : c ≠ x := by
  intro h
  rw [h, hx] at hc
  exact Bool.false_ne_true hc

theorem isDecDigit_toNat {c : Char} (hc : isDecDigit c = true) :
    48 ≤ c.toNat ∧ c.toNat ≤ 57 := by
  simp only [isDecDigit, Bool.and_eq_true, decide_eq_true_eq] at hc
  obtain ⟨h1, h2⟩ := hc
  rw [Char.le_def] at h1 h2
  exact ⟨UInt32.le_def.mp h1, UInt32.le_def.mp h2⟩

theorem digit_not_jsonWs {c : Char} (hc : isDecDigit c = true) : isJsonWs c = false := by
  have hb := isDecDigit_toNat hc
  by_contra h
  have h' : isJsonWs c = true := by
    cases hj : isJsonWs c
    · exact absurd hj h
    · rfl
  simp only [isJsonWs, Bool.or_eq_true, decide_eq_true_eq] at h'
  rcases h' with ((h1 | h1) | h1) | h1 <;> subst h1 <;> exact absurd hb (by decide)

theorem digit_not_pyWs {c : Char} (hc : isDecDigit c = true) : isPyWs c = false := by
  have hb := isDecDigit_toNat hc
  by_contra h
  have h' : isPyWs c = true := by
    cases hj : isPyWs c
    · exact absurd hj h
    · rfl
  simp only [isPyWs, Bool.or_eq_true, Bool.and_eq_true, decide_eq_true_eq] at h'
  omega

theorem natToChars_ne_nil (m : Nat) : natToChars m ≠ [] := by
  by_cases hm : m = 0
  · simp [natToChars, hm]
  · obtain ⟨d, ds, heq, -, -⟩ := natDigitsAux_shape m m (Nat.pos_of_ne_zero hm) le_rfl
    simp [natToChars, hm, heq]

theorem natToChars_rev_digit (m : Nat) :
    ∃ d t, (natToChars m).reverse = decDigitChar d :: t := by
  by_cases hm : m = 0
  · exact ⟨0, [], by simp [natToChars, hm]; decide⟩
  · cases m with
    | zero => exact absurd rfl hm
    | succ k =>
      refine ⟨(k + 1) % 10, (natDigitsAux k ((k + 1) / 10)).reverse, ?_⟩
      simp [natToChars, natDigitsAux]

/-- The first character of a serialized value: one of the fixed starters,
never whitespace and never a closing bracket. -/
theorem dumps_head (v : Json) :
    ∃ c t, dumps v = c :: t ∧ isJsonWs c = false ∧ isPyWs c = false ∧ c ≠ ']' := by
  cases v with
  | null => exact ⟨'n', _, rfl, by decide⟩
  | bool b =>
    cases b
    · exact ⟨'f', _, rfl, by decide⟩
    · exact ⟨'t', _, rfl, by decide⟩
  | num n =>
    obtain ⟨c, t, heq, hc⟩ := intToChars_head n
    have hj : isJsonWs c = false := by
      rcases hc with hc | hc
      · subst hc; decide
      · exact digit_not_jsonWs hc
    have hp : isPyWs c = false := by
      rcases hc with hc | hc
      · subst hc; decide
      · exact digit_not_pyWs hc
    have hbr : c ≠ ']' := by
      rcases hc with hc | hc
      · subst hc; decide
      · exact digit_ne_of_not_digit hc (by decide)
    exact ⟨c, t, by simpa [dumps] using heq, hj, hp, hbr⟩
  | str s => exact ⟨'"', _, rfl, by decide⟩
  | arr es => exact ⟨'[', _, rfl, by decide⟩
  | obj ms => exact ⟨lbrace, _, rfl, by decide⟩

/-- The last character of a serialized value (as the head of the reverse):
never whitespace. -/
theorem dumps_revhead (v : Json) :
    ∃ c t, (dumps v).reverse = c :: t ∧ isPyWs c = false := by
  cases v with
  | null => exact ⟨'l', ['l', 'u', 'n'], by decide, by decide⟩
  | bool b =>
    cases b
    · exact ⟨'e', ['s', 'l', 'a', 'f'], by decide, by decide⟩
    · exact ⟨'e', ['u', 'r', 't'], by decide, by decide⟩
  | num n =>
    by_cases hneg : n < 0
    · obtain ⟨d, t, hrev⟩ := natToChars_rev_digit n.natAbs
      refine ⟨decDigitChar d, t ++ ['-'], ?_, decDigitChar_not_pyWs d⟩
      simp [dumps, intToChars, hneg, hrev]
    · obtain ⟨d, t, hrev⟩ := natToChars_rev_digit n.natAbs
      exact ⟨decDigitChar d, t, by simp [dumps, intToChars, hneg, hrev], decDigitChar_not_pyWs d⟩
  | str s =>
    exact ⟨'"', (escapeString s).reverse ++ ['"'], by simp [dumps, quoteString], by decide⟩
  | arr es =>
    exact ⟨']', (dumpsElems es).reverse ++ ['['], by simp [dumps], by decide⟩
  | obj ms =>
    exact ⟨rbrace, (dumpsMembers ms).reverse ++ [lbrace], by simp [dumps], by decide⟩

theorem dumps_ne_nil (v : Json) : dumps v ≠ [] := by
  obtain ⟨c, t, heq, -, -, -⟩ := dumps_head v
  simp [heq]

theorem char_toNat_lt (c : Char) : c.toNat < 1114112 := by
  have h : c.toNat = c.val.toNat := rfl
  rcases c.valid with hv | ⟨hv1, hv2⟩ <;> omega

theorem char_not_high_surrogate (c : Char) : ¬(55296 ≤ c.toNat ∧ c.toNat ≤ 56319) := by
  have h : c.toNat = c.val.toNat := rfl
  rcases c.valid with hv | ⟨hv1, hv2⟩ <;> omega

theorem parseUEscape_bmp (n : Nat) (hn : n < 65536) (hs : ¬(55296 ≤ n ∧ n ≤ 56319))
    (tail : List Char) (f : Nat) :
    parseUEscape (f + 1) (hexDigitChar (n / 4096 % 16) :: hexDigitChar (n / 256 % 16)
        :: hexDigitChar (n / 16 % 16) :: hexDigitChar (n % 16) :: tail)
      = (parseStringBody f tail).map (fun r => (Char.ofNat n :: r.1, r.2)) := by
  have e1 : hexVal (hexDigitChar (n / 4096 % 16)) = some (n / 4096 % 16) :=
    hexVal_hexDigitChar _ (Nat.mod_lt _ (by norm_num))
  have e2 : hexVal (hexDigitChar (n / 256 % 16)) = some (n / 256 % 16) :=
    hexVal_hexDigitChar _ (Nat.mod_lt _ (by norm_num))
  have e3 : hexVal (hexDigitChar (n / 16 % 16)) = some (n / 16 % 16) :=
    hexVal_hexDigitChar _ (Nat.mod_lt _ (by norm_num))
  have e4 : hexVal (hexDigitChar (n % 16)) = some (n % 16) :=
    hexVal_hexDigitChar _ (Nat.mod_lt _ (by norm_num))
  have hrec : 4096 * (n / 4096 % 16) + 256 * (n / 256 % 16) + 16 * (n / 16 % 16) + n % 16
      = n := by omega
  simp only [parseUEscape, e1, e2, e3, e4, hrec]
  rw [if_neg hs]

theorem parseUEscape_high (n : Nat) (hs : 55296 ≤ n ∧ n ≤ 56319)
    (rest2 : List Char) (f : Nat) :
    parseUEscape (f + 1) (hexDigitChar (n / 4096 % 16) :: hexDigitChar (n / 256 % 16)
        :: hexDigitChar (n / 16 % 16) :: hexDigitChar (n % 16) :: rest2)
      = parseHighSurrogate f n rest2 := by
  have e1 : hexVal (hexDigitChar (n / 4096 % 16)) = some (n / 4096 % 16) :=
    hexVal_hexDigitChar _ (Nat.mod_lt _ (by norm_num))
  have e2 : hexVal (hexDigitChar (n / 256 % 16)) = some (n / 256 % 16) :=
    hexVal_hexDigitChar _ (Nat.mod_lt _ (by norm_num))
  have e3 : hexVal (hexDigitChar (n / 16 % 16)) = some (n / 16 % 16) :=
    hexVal_hexDigitChar _ (Nat.mod_lt _ (by norm_num))
  have e4 : hexVal (hexDigitChar (n % 16)) = some (n % 16) :=
    hexVal_hexDigitChar _ (Nat.mod_lt _ (by norm_num))
  have hrec : 4096 * (n / 4096 % 16) + 256 * (n / 256 % 16) + 16 * (n / 16 % 16) + n % 16
      = n := by omega
  simp only [parseUEscape, e1, e2, e3, e4, hrec]
  rw [if_pos hs]

theorem parseHighSurrogate_low (f n lo : Nat) (hr : 56320 ≤ lo ∧ lo ≤ 57343)
    (tail : List Char) :
    parseHighSurrogate (f + 1) n ('\\' :: 'u' :: hexDigitChar (lo / 4096 % 16)
        :: hexDigitChar (lo / 256 % 16) :: hexDigitChar (lo / 16 % 16)
        :: hexDigitChar (lo % 16) :: tail)
      = (parseStringBody f tail).map (fun r =>
          (Char.ofNat (65536 + 1024 * (n - 55296) + (lo - 56320)) :: r.1, r.2)) := by
  have e1 : hexVal (hexDigitChar (lo / 4096 % 16)) = some (lo / 4096 % 16) :=
    hexVal_hexDigitChar _ (Nat.mod_lt _ (by norm_num))
  have e2 : hexVal (hexDigitChar (lo / 256 % 16)) = some (lo / 256 % 16) :=
    hexVal_hexDigitChar _ (Nat.mod_lt _ (by norm_num))
  have e3 : hexVal (hexDigitChar (lo / 16 % 16)) = some (lo / 16 % 16) :=
    hexVal_hexDigitChar _ (Nat.mod_lt _ (by norm_num))
  have e4 : hexVal (hexDigitChar (lo % 16)) = some (lo % 16) :=
    hexVal_hexDigitChar _ (Nat.mod_lt _ (by norm_num))
  have hrec : 4096 * (lo / 4096 % 16) + 256 * (lo / 256 % 16) + 16 * (lo / 16 % 16) + lo % 16
      = lo := by omega
  simp only [parseHighSurrogate, e1, e2, e3, e4, hrec, and_self, if_true]
  rw [if_pos hr]

theorem parseStringBody_u (f : Nat) (rest1 : List Char) :
    parseStringBody (f + 1) ('\\' :: 'u' :: rest1) = parseUEscape f rest1 := by
  simp [parseStringBody]

theorem parseStringBody_twoChar (c e : Char) (hm : escMap e = some c) (he : e ≠ 'u')
    (T : List Char) (f : Nat) :
    parseStringBody (f + 1) ('\\' :: e :: T)
      = (parseStringBody f T).map (fun r => (c :: r.1, r.2)) := by
  simp [parseStringBody, he, hm]

theorem parseStringBody_literal (c : Char) (hq : c ≠ '"') (hb : c ≠ '\\')
    (hc : ¬ c.toNat < 32) (T : List Char) (f : Nat) :
    parseStringBody (f + 1) (c :: T)
      = (parseStringBody f T).map (fun r => (c :: r.1, r.2)) := by
  simp only [parseStringBody]
  rw [if_neg hq, if_neg hb, if_neg hc]

theorem parseStringBody_escapeString (s : List Char) :
    ∀ (rest : List Char) (fuel : Nat),
      (escapeString s ++ '"' :: rest).length ≤ fuel →
      parseStringBody fuel (escapeString s ++ '"' :: rest) = some (s, rest) := by
  induction s with
  | nil =>
    intro rest fuel hf
    simp only [escapeString, List.nil_append, List.length_cons] at hf ⊢
    obtain ⟨f, rfl⟩ : ∃ f, fuel = f + 1 := ⟨fuel - 1, by omega⟩
    simp [parseStringBody]
  | cons c s' ih =>
    intro rest fuel hf
    simp only [escapeString, List.append_assoc] at hf ⊢
    have hlenT : (escapeString s' ++ '"' :: rest).length
        = (escapeString s' ++ '"' :: rest).length := rfl
    by_cases h1 : c = '\\'
    · have he : escapeChar c = ['\\', '\\'] := by simp [escapeChar, h1]
      rw [he] at hf ⊢
      simp only [List.cons_append, List.nil_append, List.length_cons] at hf ⊢
      obtain ⟨f, rfl⟩ : ∃ f, fuel = f + 1 := ⟨fuel - 1, by omega⟩
      rw [parseStringBody_twoChar '\\' '\\' (by decide) (by decide) _ f,
        ih rest f (by omega), h1]
      rfl
    · by_cases h2 : c = '"'
      · have he : escapeChar c = ['\\', '"'] := by simp [escapeChar, h1, h2]
        rw [he] at hf ⊢
        simp only [List.cons_append, List.nil_append, List.length_cons] at hf ⊢
        obtain ⟨f, rfl⟩ : ∃ f, fuel = f + 1 := ⟨fuel - 1, by omega⟩
        rw [parseStringBody_twoChar '"' '"' (by decide) (by decide) _ f,
          ih rest f (by omega), h2]
        rfl
      · by_cases h3 : c.toNat = 8
        · have he : escapeChar c = ['\\', 'b'] := by simp [escapeChar, h1, h2, h3]
          have hc : c = Char.ofNat 8 := by rw [← h3, Char.ofNat_toNat]
          rw [he] at hf ⊢
          simp only [List.cons_append, List.nil_append, List.length_cons] at hf ⊢
          obtain ⟨f, rfl⟩ : ∃ f, fuel = f + 1 := ⟨fuel - 1, by omega⟩
          rw [parseStringBody_twoChar (Char.ofNat 8) 'b' (by decide) (by decide) _ f,
            ih rest f (by omega), ← hc]
          rfl
        · by_cases h4 : c.toNat = 9
          · have he : escapeChar c = ['\\', 't'] := by simp [escapeChar, h1, h2, h3, h4]
            have hc : c = Char.ofNat 9 := by rw [← h4, Char.ofNat_toNat]
            rw [he] at hf ⊢
            simp only [List.cons_append, List.nil_append, List.length_cons] at hf ⊢
            obtain ⟨f, rfl⟩ : ∃ f, fuel = f + 1 := ⟨fuel - 1, by omega⟩
            rw [parseStringBody_twoChar (Char.ofNat 9) 't' (by decide) (by decide) _ f,
              ih rest f (by omega), ← hc]
            rfl
          · by_cases h5 : c.toNat = 10
            · have he : escapeChar c = ['\\', 'n'] := by
                simp [escapeChar, h1, h2, h3, h4, h5]
              have hc : c = Char.ofNat 10 := by rw [← h5, Char.ofNat_toNat]
              rw [he] at hf ⊢
              simp only [List.cons_append, List.nil_append, List.length_cons] at hf ⊢
              obtain ⟨f, rfl⟩ : ∃ f, fuel = f + 1 := ⟨fuel - 1, by omega⟩
              rw [parseStringBody_twoChar (Char.ofNat 10) 'n' (by decide) (by decide) _ f,
                ih rest f (by omega), ← hc]
              rfl
            · by_cases h6 : c.toNat = 12
              · have he : escapeChar c = ['\\', 'f'] := by
                  simp [escapeChar, h1, h2, h3, h4, h5, h6]
                have hc : c = Char.ofNat 12 := by rw [← h6, Char.ofNat_toNat]
                rw [he] at hf ⊢
                simp only [List.cons_append, List.nil_append, List.length_cons] at hf ⊢
                obtain ⟨f, rfl⟩ : ∃ f, fuel = f + 1 := ⟨fuel - 1, by omega⟩
                rw [parseStringBody_twoChar (Char.ofNat 12) 'f' (by decide) (by decide) _ f,
                  ih rest f (by omega), ← hc]
                rfl
              · by_cases h7 : c.toNat = 13
                · have he : escapeChar c = ['\\', 'r'] := by
                    simp [escapeChar, h1, h2, h3, h4, h5, h6, h7]
                  have hc : c = Char.ofNat 13 := by rw [← h7, Char.ofNat_toNat]
                  rw [he] at hf ⊢
                  simp only [List.cons_append, List.nil_append, List.length_cons] at hf ⊢
                  obtain ⟨f, rfl⟩ : ∃ f, fuel = f + 1 := ⟨fuel - 1, by omega⟩
                  rw [parseStringBody_twoChar (Char.ofNat 13) 'r' (by decide) (by decide) _ f,
                    ih rest f (by omega), ← hc]
                  rfl
                · by_cases h8 : c.toNat < 32 ∨ 126 < c.toNat
                  · by_cases h9 : c.toNat < 65536
                    · have he : escapeChar c = uEscape c.toNat := by
                        simp only [escapeChar, if_neg h1, if_neg h2, if_neg h3, if_neg h4,
                          if_neg h5, if_neg h6, if_neg h7, if_pos h8, if_pos h9]
                      rw [he] at hf ⊢
                      simp only [uEscape, List.cons_append, List.nil_append,
                        List.length_cons] at hf ⊢
                      obtain ⟨f, rfl⟩ : ∃ f, fuel = f + 2 := ⟨fuel - 2, by omega⟩
                      rw [parseStringBody_u (f + 1) _,
                        parseUEscape_bmp c.toNat h9 (char_not_high_surrogate c) _ f,
                        ih rest f (by omega), Char.ofNat_toNat]
                      rfl
                    · have he : escapeChar c
                          = uEscape (55296 + (c.toNat - 65536) / 1024)
                            ++ uEscape (56320 + (c.toNat - 65536) % 1024) := by
                        simp only [escapeChar, if_neg h1, if_neg h2, if_neg h3, if_neg h4,
                          if_neg h5, if_neg h6, if_neg h7, if_pos h8, if_neg h9]
                      have htlt := char_toNat_lt c
                      have hsur : 55296 ≤ 55296 + (c.toNat - 65536) / 1024 ∧
                          55296 + (c.toNat - 65536) / 1024 ≤ 56319 := by
                        have : (c.toNat - 65536) / 1024 < 1024 := by omega
                        omega
                      have hlow : 56320 ≤ 56320 + (c.toNat - 65536) % 1024 ∧
                          56320 + (c.toNat - 65536) % 1024 ≤ 57343 := by
                        have : (c.toNat - 65536) % 1024 < 1024 := Nat.mod_lt _ (by norm_num)
                        omega
                      have hcomb : 65536
                            + 1024 * (55296 + (c.toNat - 65536) / 1024 - 55296)
                            + (56320 + (c.toNat - 65536) % 1024 - 56320) = c.toNat := by
                        omega
                      rw [he] at hf ⊢
                      simp only [uEscape, List.cons_append, List.nil_append,
                        List.append_assoc, List.length_cons] at hf ⊢
                      obtain ⟨f, rfl⟩ : ∃ f, fuel = f + 3 := ⟨fuel - 3, by omega⟩
                      rw [parseStringBody_u (f + 2) _,
                        parseUEscape_high (55296 + (c.toNat - 65536) / 1024) hsur _ (f + 1),
                        parseHighSurrogate_low f _ (56320 + (c.toNat - 65536) % 1024) hlow _,
                        hcomb, ih rest f (by omega), Char.ofNat_toNat]
                      rfl
                  · have he : escapeChar c = [c] := by
                      simp only [escapeChar, if_neg h1, if_neg h2, if_neg h3, if_neg h4,
                        if_neg h5, if_neg h6, if_neg h7, if_neg h8]
                    have h32 : ¬ c.toNat < 32 := by omega
                    rw [he] at hf ⊢
                    simp only [List.cons_append, List.nil_append, List.length_cons] at hf ⊢
                    obtain ⟨f, rfl⟩ : ∃ f, fuel = f + 1 := ⟨fuel - 1, by omega⟩
                    rw [parseStringBody_literal c h2 h1 h32 _ f, ih rest f (by omega)]
                    rfl

theorem parseNumber_intToChars (n : Int) (rest : List Char) (hsafe : sepSafe rest = true) :
    parseNumber (intToChars n ++ rest) = some (Json.num n, rest) := by
  have htail := numTailOk_of_sepSafe rest hsafe
  by_cases hneg : n < 0
  · have habs : (-(n.natAbs : Int)) = n := by omega
    simp only [intToChars, if_pos hneg, List.cons_append, parseNumber, if_pos rfl,
      parseNatPart_natToChars n.natAbs rest hsafe, htail, if_pos rfl, habs]
    simp
  · obtain ⟨c, t, heq, -⟩ := intToChars_head n
    have hnat : intToChars n = natToChars n.natAbs := by
      simp [intToChars, if_neg hneg]
    rw [hnat] at heq
    have hdig : isDecDigit c = true := by
      by_cases hz : n.natAbs = 0
      · rw [natToChars, if_pos hz] at heq
        simp only [List.cons.injEq] at heq
        rw [← heq.1]
        decide
      · obtain ⟨d, ds, hshape, -, -⟩ := natDigitsAux_shape n.natAbs n.natAbs
          (Nat.pos_of_ne_zero hz) le_rfl
        rw [natToChars, if_neg hz, hshape] at heq
        simp only [List.cons.injEq] at heq
        rw [← heq.1]
        exact decDigitChar_decDigit d
    have hcm : c ≠ '-' := by
      intro hcontra
      rw [hcontra] at hdig
      simp [isDecDigit] at hdig
    have habs : ((n.natAbs : Int)) = n := by omega
    have hpart := parseNatPart_natToChars n.natAbs rest hsafe
    rw [heq] at hpart
    simp only [List.cons_append] at hpart
    rw [hnat, heq]
    simp only [List.cons_append, parseNumber, if_neg hcm, hpart, htail, habs]
    simp

theorem replyWrites_append (a b : List TelnetEvent) :
    replyWrites (a ++ b) = replyWrites a ++ replyWrites b := by
  induction a with
  | nil => rfl
  | cons e rest ih => cases e <;> simp [replyWrites, ih]

theorem replyWrites_map_reply (l : List (List Nat)) :
    replyWrites (l.map TelnetEvent.reply) = l := by
  induction l with
  | nil => rfl
  | cons x rest ih => simp [replyWrites, ih]

theorem append_eq_triple {α : Type} {c1 c2 : List α} {x y z : α}
    (h : c1 ++ c2 = [x, y, z]) :
    (c1 = [] ∧ c2 = [x, y, z]) ∨ (c1 = [x] ∧ c2 = [y, z]) ∨
    (c1 = [x, y] ∧ c2 = [z]) ∨ (c1 = [x, y, z] ∧ c2 = []) := by
  match c1 with
  | [] => exact Or.inl ⟨rfl, h⟩
  | [a] =>
    simp only [List.cons_append, List.nil_append, List.cons.injEq] at h
    exact Or.inr (Or.inl ⟨by simp [h.1], h.2⟩)
  | [a, b] =>
    simp only [List.cons_append, List.nil_append, List.cons.injEq] at h
    exact Or.inr (Or.inr (Or.inl ⟨by simp [h.1, h.2.1], h.2.2⟩))
  | [a, b, c] =>
    simp only [List.cons_append, List.nil_append, List.cons.injEq] at h
    refine Or.inr (Or.inr (Or.inr ⟨by simp [h.1, h.2.1, h.2.2.1], ?_⟩))
    have := h.2.2.2
    simpa using this
  | a :: b :: c :: d :: t =>
    have hl := congrArg List.length h
    simp [List.length_append] at hl

/-- Processing a complete `command opt` pair from `STATE_IAC`: one batch of
policy replies, back to `STATE_NORMAL`, buffer finished. -/
theorem parseLoop_iac_pair (cmd opt : Nat) (sub : List Nat)
    (hcmd : cmd = WILL_B ∨ cmd = DO_B ∨ cmd = WONT_B ∨ cmd = DONT_B) :
    parseLoop 2 STATE_IAC sub [cmd, opt] []
      = ((negotiationReply cmd opt).map TelnetEvent.reply, STATE_NORMAL, sub, []) := by
  rcases hcmd with h | h | h | h <;> subst h <;>
    simp +decide [parseLoop, flushEvents, STATE_IAC, STATE_NORMAL, WILL_B, DO_B, WONT_B,
      DONT_B]

theorem parseValue_null (f : Nat) (X : List Char) :
    parseValue (f + 1) ('n' :: 'u' :: 'l' :: 'l' :: X) = some (Json.null, X) := by
  simp only [parseValue]
  rw [if_neg (by decide), if_neg (by decide), if_neg (by decide)]
  simp

theorem parseValue_true (f : Nat) (X : List Char) :
    parseValue (f + 1) ('t' :: 'r' :: 'u' :: 'e' :: X) = some (Json.bool true, X) := by
  simp only [parseValue]
  rw [if_neg (by decide), if_neg (by decide), if_neg (by decide), if_neg (by decide)]
  simp

theorem parseValue_false (f : Nat) (X : List Char) :
    parseValue (f + 1) ('f' :: 'a' :: 'l' :: 's' :: 'e' :: X) = some (Json.bool false, X) := by
  simp only [parseValue]
  rw [if_neg (by decide), if_neg (by decide), if_neg (by decide), if_neg (by decide),
    if_neg (by decide)]
  simp

theorem parseValue_string (f : Nat) (X : List Char) :
    parseValue (f + 1) ('"' :: X)
      = match parseStringBody X.length X with
        | some (s, r) => some (Json.str s, r)
        | none => none := by
  simp only [parseValue]
  rw [if_neg (by decide), if_neg (by decide)]
  simp

theorem parseValue_bracket (f : Nat) (X : List Char) :
    parseValue (f + 1) ('[' :: X)
      = match skipWs X with
        | [] => none
        | d :: r2 =>
          if d = ']' then some (Json.arr .nil, r2)
          else
            match parseElems f (d :: r2) with
            | some (es, r) => some (Json.arr es, r)
            | none => none := by
  simp only [parseValue]
  rw [if_neg (by decide)]
  simp

theorem parseValue_braceOpen (f : Nat) (X : List Char) :
    parseValue (f + 1) (lbrace :: X)
      = match skipWs X with
        | [] => none
        | d :: r2 =>
          if d = rbrace then some (Json.obj .nil, r2)
          else
            match parseMembers f (d :: r2) with
            | some (ms, r) => some (Json.obj ms, r)
            | none => none := by
  simp only [parseValue]
  simp

theorem parseValue_num (f : Nat) (c : Char) (X : List Char)
    (hc : c = '-' ∨ isDecDigit c = true) :
    parseValue (f + 1) (c :: X) = parseNumber (c :: X) := by
  have h1 : c ≠ lbrace := by
    rcases hc with h | h
    · subst h; decide
    · exact digit_ne_of_not_digit h (by decide)
  have h2 : c ≠ '[' := by
    rcases hc with h | h
    · subst h; decide
    · exact digit_ne_of_not_digit h (by decide)
  have h3 : c ≠ '"' := by
    rcases hc with h | h
    · subst h; decide
    · exact digit_ne_of_not_digit h (by decide)
  have h4 : c ≠ 'n' := by
    rcases hc with h | h
    · subst h; decide
    · exact digit_ne_of_not_digit h (by decide)
  have h5 : c ≠ 't' := by
    rcases hc with h | h
    · subst h; decide
    · exact digit_ne_of_not_digit h (by decide)
  have h6 : c ≠ 'f' := by
    rcases hc with h | h
    · subst h; decide
    · exact digit_ne_of_not_digit h (by decide)
  have hlast : (c = '-' || isDecDigit c) = true := by
    rcases hc with h | h
    · subst h; decide
    · simp [h]
  simp only [parseValue]
  rw [if_neg h1, if_neg h2, if_neg h3, if_neg h4, if_neg h5, if_neg h6, if_pos hlast]

/-- The round-trip of the serializer through the parser, by induction on the
parse fuel: re-reading `dumps v` at any sufficient fuel yields `v` exactly
and leaves the continuation untouched (the continuation must not extend a
trailing numeral, which the serializer's separators guarantee). -/
theorem parse_dumps_all (f : Nat) :
    (∀ (v : Json) (rest : List Char), jfuel v ≤ f → sepSafe rest = true →
      parseValue f (dumps v ++ rest) = some (v, rest)) ∧
    (∀ (es : JsonElems) (rest : List Char), es ≠ JsonElems.nil → efuel es ≤ f →
      parseElems f (dumpsElems es ++ ']' :: rest) = some (es, rest)) ∧
    (∀ (ms : JsonMembers) (rest : List Char), ms ≠ JsonMembers.nil → mfuel ms ≤ f →
      parseMembers f (dumpsMembers ms ++ rbrace :: rest) = some (ms, rest)) := by
  induction f with
  | zero =>
    refine ⟨fun v rest hf _ => ?_, fun es rest hne hf => ?_, fun ms rest hne hf => ?_⟩
    · exact absurd hf (by have := jfuel_pos v; omega)
    · exact absurd hf (by have := efuel_pos es hne; omega)
    · exact absurd hf (by have := mfuel_pos ms hne; omega)
  | succ f ih =>
    obtain ⟨ihv, ihe, ihm⟩ := ih
    refine ⟨?_, ?_, ?_⟩
    · intro v rest hfuel hsafe
      cases v with
      | null =>
        rw [show dumps Json.null = ['n', 'u', 'l', 'l'] from rfl]
        simp only [List.cons_append, List.nil_append]
        exact parseValue_null f rest
      | bool b =>
        cases b
        · rw [show dumps (Json.bool false) = ['f', 'a', 'l', 's', 'e'] from rfl]
          simp only [List.cons_append, List.nil_append]
          exact parseValue_false f rest
        · rw [show dumps (Json.bool true) = ['t', 'r', 'u', 'e'] from rfl]
          simp only [List.cons_append, List.nil_append]
          exact parseValue_true f rest
      | num n =>
        have h := parseNumber_intToChars n rest hsafe
        obtain ⟨c, t, heq, hc⟩ := intToChars_head n
        rw [show dumps (Json.num n) = intToChars n from rfl, heq, List.cons_append]
        rw [heq, List.cons_append] at h
        rw [parseValue_num f c (t ++ rest) hc, h]
      | str s =>
        rw [show dumps (Json.str s) = '"' :: (escapeString s ++ ['"']) from rfl]
        simp only [List.cons_append, List.append_assoc, List.singleton_append,
          List.nil_append]
        rw [parseValue_string f _,
          parseStringBody_escapeString s rest _ le_rfl]
      | arr es =>
        cases es with
        | nil =>
          rw [show dumps (Json.arr JsonElems.nil) = ['[', ']'] from rfl]
          simp only [List.cons_append, List.nil_append]
          rw [parseValue_bracket f _, skipWs_cons ']' rest (by decide)]
          simp
        | cons v es' =>
          obtain ⟨c, t, hdv, hjws, -, hbr⟩ := dumps_head v
          have hrepack : dumps (Json.arr (JsonElems.cons v es')) ++ rest
              = '[' :: (c :: (t ++ (dumpsElemsRest es' ++ ']' :: rest))) := by
            rw [show dumps (Json.arr (JsonElems.cons v es'))
                = '[' :: ((dumps v ++ dumpsElemsRest es') ++ [']']) from rfl, hdv]
            simp
          have hback : parseElems f (c :: (t ++ (dumpsElemsRest es' ++ ']' :: rest)))
              = some (JsonElems.cons v es', rest) := by
            have heq : c :: (t ++ (dumpsElemsRest es' ++ ']' :: rest))
                = dumpsElems (JsonElems.cons v es') ++ ']' :: rest := by
              rw [show dumpsElems (JsonElems.cons v es')
                  = dumps v ++ dumpsElemsRest es' from rfl, hdv]
              simp
            rw [heq]
            exact ihe (JsonElems.cons v es') rest (by simp)
              (by simp only [jfuel] at hfuel; omega)
          rw [hrepack, parseValue_bracket f _, skipWs_cons c _ hjws]
          simp [hbr, hback]
      | obj ms =>
        cases ms with
        | nil =>
          rw [show dumps (Json.obj JsonMembers.nil) = [lbrace, rbrace] from rfl]
          simp only [List.cons_append, List.nil_append]
          rw [parseValue_braceOpen f _, skipWs_cons rbrace rest (by decide)]
          simp
        | cons k v ms' =>
          have hrepack : dumps (Json.obj (JsonMembers.cons k v ms')) ++ rest
              = lbrace :: ('"' :: ((escapeString k ++ ['"'])
                  ++ (':' :: dumps v ++ dumpsMembersRest ms' ++ rbrace :: rest))) := by
            rw [show dumps (Json.obj (JsonMembers.cons k v ms'))
                = lbrace :: ((('"' :: (escapeString k ++ ['"']))
                    ++ ':' :: dumps v ++ dumpsMembersRest ms') ++ [rbrace]) from rfl]
            simp
          have hback : parseMembers f ('"' :: (escapeString k
                ++ '"' :: ':' :: (dumps v ++ (dumpsMembersRest ms' ++ rbrace :: rest))))
              = some (JsonMembers.cons k v ms', rest) := by
            have heq : '"' :: (escapeString k
                  ++ '"' :: ':' :: (dumps v ++ (dumpsMembersRest ms' ++ rbrace :: rest)))
                = dumpsMembers (JsonMembers.cons k v ms') ++ rbrace :: rest := by
              rw [show dumpsMembers (JsonMembers.cons k v ms')
                  = ('"' :: (escapeString k ++ ['"'])) ++ ':' :: dumps v
                    ++ dumpsMembersRest ms' from rfl]
              simp
            rw [heq]
            exact ihm (JsonMembers.cons k v ms') rest (by simp)
              (by simp only [jfuel] at hfuel; omega)
          rw [hrepack, parseValue_braceOpen f _, skipWs_cons '"' _ (by decide)]
          simp [(by decide : ¬('"' : Char) = rbrace), hback]
    · intro es rest hne hfuel
      cases es with
      | nil => exact absurd rfl hne
      | cons v es' =>
        have hv : parseValue f (dumps v ++ (dumpsElemsRest es' ++ ']' :: rest))
            = some (v, dumpsElemsRest es' ++ ']' :: rest) := by
          apply ihv
          · simp only [efuel] at hfuel
            omega
          · cases es' with
            | nil => rfl
            | cons v2 es'' => rfl
        have hshape : dumpsElems (JsonElems.cons v es') ++ ']' :: rest
            = dumps v ++ (dumpsElemsRest es' ++ ']' :: rest) := by
          rw [show dumpsElems (JsonElems.cons v es')
              = dumps v ++ dumpsElemsRest es' from rfl]
          simp
        rw [hshape]
        simp only [parseElems]
        rw [hv]
        cases es' with
        | nil =>
          simp only [dumpsElemsRest, List.nil_append]
          rw [skipWs_cons ']' rest (by decide)]
          simp
        | cons v2 es'' =>
          obtain ⟨c2, t2, hdv2, hjws2, -, -⟩ := dumps_head v2
          have hrec2 : parseElems f (skipWs (dumps v2 ++ (dumpsElemsRest es''
                ++ ']' :: rest)))
              = some (JsonElems.cons v2 es'', rest) := by
            have hshape2 : skipWs (dumps v2 ++ (dumpsElemsRest es'' ++ ']' :: rest))
                = dumpsElems (JsonElems.cons v2 es'') ++ ']' :: rest := by
              rw [show dumpsElems (JsonElems.cons v2 es'')
                  = dumps v2 ++ dumpsElemsRest es'' from rfl, hdv2]
              simp only [List.cons_append, List.append_assoc]
              rw [skipWs_cons c2 _ hjws2]
            rw [hshape2]
            exact ihe (JsonElems.cons v2 es'') rest (by simp)
              (by simp only [efuel] at hfuel ⊢; omega)
          have hsw : ∀ X : List Char, skipWs (',' :: X) = ',' :: X := fun X =>
            skipWs_cons ',' X (by decide)
          simp [dumpsElemsRest, hsw, hrec2]
    · intro ms rest hne hfuel
      cases ms with
      | nil => exact absurd rfl hne
      | cons k v ms' =>
        have hv : parseValue f (dumps v ++ (dumpsMembersRest ms' ++ rbrace :: rest))
            = some (v, dumpsMembersRest ms' ++ rbrace :: rest) := by
          apply ihv
          · simp only [mfuel] at hfuel
            omega
          · cases ms' with
            | nil => rfl
            | cons k2 v2 ms'' => rfl
        have hshape : dumpsMembers (JsonMembers.cons k v ms') ++ rbrace :: rest
            = '"' :: (escapeString k ++ '"'
                :: (':' :: (dumps v ++ (dumpsMembersRest ms' ++ rbrace :: rest)))) := by
          rw [show dumpsMembers (JsonMembers.cons k v ms')
              = ('"' :: (escapeString k ++ ['"'])) ++ ':' :: dumps v
                ++ dumpsMembersRest ms' from rfl]
          simp
        have hstr := parseStringBody_escapeString k
          (':' :: (dumps v ++ (dumpsMembersRest ms' ++ rbrace :: rest)))
          (escapeString k ++ '"'
            :: ':' :: (dumps v ++ (dumpsMembersRest ms' ++ rbrace :: rest))).length le_rfl
        have hswColon : ∀ X : List Char, skipWs (':' :: X) = ':' :: X := fun X =>
          skipWs_cons ':' X (by decide)
        obtain ⟨c2, t2, hdv2, hjws2, -, -⟩ := dumps_head v
        have hskip : skipWs (dumps v ++ (dumpsMembersRest ms' ++ rbrace :: rest))
            = dumps v ++ (dumpsMembersRest ms' ++ rbrace :: rest) := by
          rw [hdv2]
          simp only [List.cons_append]
          rw [skipWs_cons c2 _ hjws2]
        cases ms' with
        | nil =>
          have hswBrace : skipWs (rbrace :: rest) = rbrace :: rest :=
            skipWs_cons rbrace rest (by decide)
          rw [hshape]
          simp only [parseMembers]
          rw [if_pos trivial, hstr]
          dsimp only
          rw [hswColon]
          dsimp only
          rw [if_pos rfl, hskip, hv]
          dsimp only
          rw [show dumpsMembersRest JsonMembers.nil = ([] : List Char) from rfl,
            List.nil_append, hswBrace]
          dsimp only
          rw [if_pos rfl]
        | cons k2 v2 ms'' =>
          have hswComma : ∀ X : List Char, skipWs (',' :: X) = ',' :: X := fun X =>
            skipWs_cons ',' X (by decide)
          have hrec2 : parseMembers f (skipWs (quoteString k2
                ++ ':' :: (dumps v2 ++ (dumpsMembersRest ms'' ++ rbrace :: rest))))
              = some (JsonMembers.cons k2 v2 ms'', rest) := by
            have h1 : quoteString k2
                  ++ ':' :: (dumps v2 ++ (dumpsMembersRest ms'' ++ rbrace :: rest))
                = '"' :: ((escapeString k2 ++ ['"'])
                    ++ ':' :: (dumps v2 ++ (dumpsMembersRest ms'' ++ rbrace :: rest))) := by
              simp [quoteString]
            have h2 : quoteString k2
                  ++ ':' :: (dumps v2 ++ (dumpsMembersRest ms'' ++ rbrace :: rest))
                = dumpsMembers (JsonMembers.cons k2 v2 ms'') ++ rbrace :: rest := by
              rw [show dumpsMembers (JsonMembers.cons k2 v2 ms'')
                  = quoteString k2 ++ ':' :: dumps v2 ++ dumpsMembersRest ms'' from rfl]
              simp
            rw [h1, skipWs_cons '"' _ (by decide), ← h1, h2]
            exact ihm (JsonMembers.cons k2 v2 ms'') rest (by simp)
              (by simp only [mfuel] at hfuel ⊢; omega)
          rw [hshape]
          simp only [parseMembers]
          rw [if_pos trivial, hstr]
          dsimp only
          rw [hswColon]
          dsimp only
          rw [if_pos rfl, hskip, hv]
          dsimp only
          rw [show dumpsMembersRest (JsonMembers.cons k2 v2 ms'')
              = ',' :: quoteString k2 ++ ':' :: dumps v2 ++ dumpsMembersRest ms''
              from rfl]
          simp only [List.cons_append, List.append_assoc]
          rw [hswComma]
          dsimp only
          rw [if_neg (by decide : ¬(',' : Char) = rbrace), if_pos rfl, hrec2]

theorem dumpsElemsRest_length_le (es : JsonElems) :
    (dumpsElemsRest es).length ≤ (dumpsElems es).length + 1 := by
  cases es with
  | nil => simp [dumpsElemsRest, dumpsElems]
  | cons v r => simp [dumpsElemsRest, dumpsElems]

theorem dumpsMembersRest_length_le (ms : JsonMembers) :
    (dumpsMembersRest ms).length ≤ (dumpsMembers ms).length + 1 := by
  cases ms with
  | nil => simp [dumpsMembersRest, dumpsMembers]
  | cons k v r => simp [dumpsMembersRest, dumpsMembers, quoteString]

mutual

theorem jfuel_le_dumps (v : Json) : jfuel v ≤ (dumps v).length := by
  match v with
  | .null => simp [jfuel, dumps]
  | .bool b => cases b <;> simp [jfuel, dumps]
  | .num n =>
    obtain ⟨c, t, heq, -⟩ := intToChars_head n
    simp [jfuel, dumps, heq]
  | .str s => simp [jfuel, dumps, quoteString]
  | .arr es =>
    have h1 := efuel_le_dumpsRest es
    have h2 := dumpsElemsRest_length_le es
    simp only [jfuel, dumps, List.length_cons, List.length_append]
    omega
  | .obj ms =>
    have h1 := mfuel_le_dumpsRest ms
    have h2 := dumpsMembersRest_length_le ms
    simp only [jfuel, dumps, List.length_cons, List.length_append]
    omega
termination_by structural v

theorem efuel_le_dumpsRest (es : JsonElems) : efuel es ≤ (dumpsElemsRest es).length := by
  match es with
  | .nil => simp [efuel, dumpsElemsRest]
  | .cons v r =>
    have h1 := jfuel_le_dumps v
    have h2 := efuel_le_dumpsRest r
    simp only [efuel, dumpsElemsRest, List.length_cons, List.length_append]
    omega
termination_by structural es

theorem mfuel_le_dumpsRest (ms : JsonMembers) : mfuel ms ≤ (dumpsMembersRest ms).length := by
  match ms with
  | .nil => simp [mfuel, dumpsMembersRest]
  | .cons k v r =>
    have h1 := jfuel_le_dumps v
    have h2 := mfuel_le_dumpsRest r
    simp only [mfuel, dumpsMembersRest, quoteString, List.length_cons,
      List.length_append]
    omega
termination_by structural ms

end

theorem skipWs_dumps (v : Json) : skipWs (dumps v) = dumps v := by
  obtain ⟨c, t, heq, hws, -, -⟩ := dumps_head v
  rw [heq, skipWs_cons c t hws]

theorem jsonLoads_dumps (v : Json) : jsonLoads (dumps v) = some v := by
  have hle : jfuel v ≤ (dumps v).length + 1 :=
    le_trans (jfuel_le_dumps v) (Nat.le_succ _)
  have h := (parse_dumps_all ((dumps v).length + 1)).1 v [] hle rfl
  rw [List.append_nil] at h
  simp only [jsonLoads]
  rw [skipWs_dumps v, h]
  simp [skipWs]

theorem pyLstrip_of_head (cs : List Char) (c : Char) (t : List Char)
    (h : cs = c :: t) (hc : isPyWs c = false) : pyLstrip cs = cs := by
  unfold pyLstrip
  rw [h, List.dropWhile_cons, if_neg (by simp [hc])]

theorem pyRstrip_of_rev_head (cs : List Char) (c : Char) (t : List Char)
    (h : cs.reverse = c :: t) (hc : isPyWs c = false) : pyRstrip cs = cs := by
  unfold pyRstrip
  rw [h, List.dropWhile_cons, if_neg (by simp [hc]), ← h, List.reverse_reverse]

theorem splitAtFirstSpace_append (pkg tail : List Char) (h : ' ' ∉ pkg) :
    splitAtFirstSpace (pkg ++ ' ' :: tail) = some (pkg, ' ' :: tail) := by
  induction pkg with
  | nil => simp [splitAtFirstSpace]
  | cons c t ih =>
    have hc : ¬ c = ' ' := fun e => h (by rw [e]; exact List.mem_cons_self _ _)
    have ht : ' ' ∉ t := fun m => h (List.mem_cons_of_mem c m)
    rw [List.cons_append]
    simp [splitAtFirstSpace, hc, ih ht]

theorem dispatchGmcp_eq (listeners : List (List Char → Json → Except (List Char) Unit))
    (s pkg : List Char) (v : Json) (h : gmcpDecode s = (pkg, v)) :
    dispatchGmcp listeners s = listeners.map (fun listener => ((pkg, v), listener pkg v)) := by
  simp only [dispatchGmcp, h]

theorem feedAll_pair (cfg : TelnetConfig) (c1 c2 : List Nat) :
    (feedAll cfg [c1, c2]).2 = (feed cfg c1).2 ++ (feed (feed cfg c1).1 c2).2 := by
  simp [feedAll]

theorem lookupAlias_dictInsert (t : AliasTable) (c r : List Char) :
    lookupAlias (dictInsert t c r) c = some r := by
  induction t with
  | nil => simp [dictInsert, lookupAlias]
  | cons kv rest ih =>
    obtain ⟨k, v⟩ := kv
    by_cases h : k = c <;> simp [dictInsert, lookupAlias, h, ih]

/-! ## Claim theorems -/

/-- C1: the claim states that for every total byte stream and every two
chunk partitions, the concatenated text output is identical.  The code
violates this: after a two-byte command (here the doubled `IAC`), the
loop-end `i += 1` skips the following byte, so `FF FF 42` in one chunk
loses the `0x42`, while the split `FF FF | 42` keeps it.  This theorem
evaluates the decoder at that failing input. -/
theorem C1_chunking_alters_text :
    textConcat (feed initialConfig [IAC_B, IAC_B, 66]).2 = [IAC_B] ∧
    textConcat (feedAll initialConfig [[IAC_B, IAC_B], [66]]).2 = [IAC_B, 66] ∧
    textConcat (feed initialConfig [IAC_B, IAC_B, 66]).2
      ≠ textConcat (feedAll initialConfig [[IAC_B, IAC_B], [66]]).2 := by
  decide

/-- C2 (counterexample): a command byte in `IAC_SEEN` that is none of
`WILL/DO/WONT/DONT/SB/IAC/SE/NOP/GA` (here `0xF5`) does not fall back to
`STATE_NORMAL`: the `if/elif` chain has no final `else`, so the state stays
`STATE_IAC`. -/
theorem C2_unknown_command_counterexample :
    (feed initialConfig [IAC_B, 245]).1.telnet_parser_state = STATE_IAC ∧
    STATE_IAC ≠ STATE_NORMAL := by
  decide

/-- C2 (amended): the transition is total — every state and byte value
yields a defined result — and for every command byte in `IAC_SEEN` that is
not `WILL/DO/WONT/DONT`, `SB`, `IAC`, `SE`, or the no-op/go-ahead command,
the decoder consumes the byte and *remains in* `STATE_IAC` (rather than
falling back to `STATE_NORMAL`). -/
theorem C2_transition_totality_amended :
    (∀ (state : Nat) (sub residual chunk : List Nat),
      ∃ out, feed ⟨state, sub, residual⟩ chunk = out) ∧
    (∀ (sub : List Nat) (b : Nat),
      ¬(b = WILL_B ∨ b = DO_B ∨ b = WONT_B ∨ b = DONT_B) → b ≠ SB_B → b ≠ IAC_B →
      b ≠ SE_B → ¬(b = NOP_B ∨ b = GA_B) →
      feed ⟨STATE_IAC, sub, []⟩ [b] = (⟨STATE_IAC, sub, []⟩, [])) := by
  constructor
  · intro state sub residual chunk
    exact ⟨_, rfl⟩
  · intro sub b h1 h2 h3 h4 h5
    simp [feed, parseLoop, flushEvents, STATE_IAC, STATE_NORMAL, h1, h2, h3, h4, h5]

theorem C2_transition_totality_amended_witness :
    feed ⟨STATE_IAC, [], []⟩ [245] = (⟨STATE_IAC, [], []⟩, []) :=
  C2_transition_totality_amended.2 [] 245 (by decide) (by decide) (by decide)
    (by decide) (by decide)

/-- C3: feeding `IAC SB <gmcp-option>` + `'Char.Vitals {"hp":80,"maxhp":100}'`
+ `IAC SE` forwards exactly one GMCP payload, which decodes to package
`"Char.Vitals"` with value `{hp: 80, maxhp: 100}`, and dispatch invokes
every registered listener exactly once with exactly those arguments.
(The decoder skips the option byte `0xC9` after `SB` but then treats the
leading `'C'` of the payload as a GMCP data option and seeds the payload
buffer with it, so the full payload survives.) -/
theorem C3_gmcp_vitals_dispatch :
    (feed initialConfig ([IAC_B, SB_B, GMCP_B]
        ++ "Char.Vitals \x7b\"hp\":80,\"maxhp\":100\x7d".data.map Char.toNat
        ++ [IAC_B, SE_B])).2
      = [TelnetEvent.gmcp ("Char.Vitals \x7b\"hp\":80,\"maxhp\":100\x7d".data.map Char.toNat)] ∧
    gmcpDecode (latin1Decode ("Char.Vitals \x7b\"hp\":80,\"maxhp\":100\x7d".data.map Char.toNat))
      = ("Char.Vitals".data,
          Json.obj (.cons "hp".data (.num 80) (.cons "maxhp".data (.num 100) .nil))) ∧
    ∀ listeners,
      dispatchGmcp listeners
          (latin1Decode ("Char.Vitals \x7b\"hp\":80,\"maxhp\":100\x7d".data.map Char.toNat))
        = listeners.map (fun listener =>
            (("Char.Vitals".data,
              Json.obj (.cons "hp".data (.num 80) (.cons "maxhp".data (.num 100) .nil))),
              listener "Char.Vitals".data
                (Json.obj (.cons "hp".data (.num 80) (.cons "maxhp".data (.num 100) .nil))))) := by
  have h : gmcpDecode (latin1Decode
      ("Char.Vitals \x7b\"hp\":80,\"maxhp\":100\x7d".data.map Char.toNat))
      = ("Char.Vitals".data,
          Json.obj (.cons "hp".data (.num 80) (.cons "maxhp".data (.num 100) .nil))) := by
    decide
  exact ⟨by decide, h, fun listeners => dispatchGmcp_eq listeners _ _ _ h⟩

/-- C5: a doubled `IAC` consumed from `STATE_NORMAL` (outside any
sub-negotiation, with any retained sub buffer) appends exactly one literal
`0xFF` byte to the text output — never zero, never two — and returns the
parser to `STATE_NORMAL`. -/
theorem C5_doubled_iac_literal (sub : List Nat) :
    feed ⟨STATE_NORMAL, sub, []⟩ [IAC_B, IAC_B]
      = (⟨STATE_NORMAL, sub, []⟩, [TelnetEvent.text [IAC_B] false]) ∧
    textConcat (feed ⟨STATE_NORMAL, sub, []⟩ [IAC_B, IAC_B]).2 = [IAC_B] :=
  ⟨rfl, rfl⟩

/-- C6: a negotiation triplet `IAC cmd opt` with `cmd ∈ {WILL, DO, WONT,
DONT}` produces the same policy replies — at most one, and exactly one in
the three supported cases — whether it arrives in one feed or split at any
boundary across two feeds. -/
theorem C6_split_negotiation (cmd opt : Nat) (c1 c2 : List Nat)
    (hcmd : cmd = WILL_B ∨ cmd = DO_B ∨ cmd = WONT_B ∨ cmd = DONT_B)
    (hsplit : c1 ++ c2 = [IAC_B, cmd, opt]) :
    replyWrites (feedAll initialConfig [c1, c2]).2 = negotiationReply cmd opt ∧
    replyWrites (feed initialConfig [IAC_B, cmd, opt]).2 = negotiationReply cmd opt ∧
    (negotiationReply cmd opt).length ≤ 1 := by
  have h2 : parseLoop 2 STATE_IAC [] [cmd, opt] []
      = ((negotiationReply cmd opt).map TelnetEvent.reply, STATE_NORMAL, [], []) :=
    parseLoop_iac_pair cmd opt [] hcmd
  have h1 : parseLoop 3 STATE_NORMAL [] [IAC_B, cmd, opt] []
      = (((negotiationReply cmd opt).map TelnetEvent.reply), STATE_NORMAL, [], []) := by
    rcases hcmd with h | h | h | h <;> subst h <;>
      simp +decide [parseLoop, flushEvents, STATE_IAC, STATE_NORMAL, WILL_B, DO_B,
        WONT_B, DONT_B, IAC_B]
  have hfull : feed initialConfig [IAC_B, cmd, opt]
      = (⟨STATE_NORMAL, [], []⟩, (negotiationReply cmd opt).map TelnetEvent.reply) := by
    simp [feed, initialConfig, h1]
  have hwhole : replyWrites (feed initialConfig [IAC_B, cmd, opt]).2
      = negotiationReply cmd opt := by
    rw [hfull]
    exact replyWrites_map_reply _
  have hlen : (negotiationReply cmd opt).length ≤ 1 := by
    unfold negotiationReply
    split_ifs <;> simp
  refine ⟨?_, hwhole, hlen⟩
  rcases append_eq_triple hsplit with ⟨e1, e2⟩ | ⟨e1, e2⟩ | ⟨e1, e2⟩ | ⟨e1, e2⟩ <;>
      subst e1 <;> subst e2
  · -- first chunk empty
    have hstep0 : feed initialConfig [] = (initialConfig, []) := by decide
    rw [feedAll_pair, hstep0]
    simpa using hwhole
  · -- split after the IAC
    have hstep : feed initialConfig [IAC_B] = (⟨STATE_IAC, [], []⟩, []) := by decide
    have h3 : feed ⟨STATE_IAC, [], []⟩ [cmd, opt]
        = (⟨STATE_NORMAL, [], []⟩, (negotiationReply cmd opt).map TelnetEvent.reply) := by
      simp [feed, h2]
    rw [feedAll_pair, hstep]
    simp [h3, replyWrites_map_reply, replyWrites]
  · -- split after the command byte
    have hstep : feed initialConfig [IAC_B, cmd] = (⟨STATE_IAC, [], [cmd]⟩, []) := by
      rcases hcmd with h | h | h | h <;> subst h <;> decide
    have h3 : feed ⟨STATE_IAC, [], [cmd]⟩ [opt]
        = (⟨STATE_NORMAL, [], []⟩, (negotiationReply cmd opt).map TelnetEvent.reply) := by
      simp [feed, h2]
    rw [feedAll_pair, hstep]
    simp [h3, replyWrites_map_reply, replyWrites]
  · -- second chunk empty
    have hstep4 : feed (⟨STATE_NORMAL, [], []⟩ : TelnetConfig) [] = (⟨STATE_NORMAL, [], []⟩, []) := by
      decide
    rw [feedAll_pair, hfull]
    simp [hstep4, replyWrites_append, replyWrites_map_reply, replyWrites]

theorem C6_split_negotiation_witness :
    replyWrites (feedAll initialConfig [[IAC_B], [WILL_B, GMCP_B]]).2
      = negotiationReply WILL_B GMCP_B ∧
    replyWrites (feed initialConfig [IAC_B, WILL_B, GMCP_B]).2
      = negotiationReply WILL_B GMCP_B ∧
    (negotiationReply WILL_B GMCP_B).length ≤ 1 :=
  C6_split_negotiation WILL_B GMCP_B [IAC_B] [WILL_B, GMCP_B] (Or.inl rfl) rfl

/-- C7: a GMCP message whose text after the first space is non-empty but is
not valid JSON still dispatches: the decoded value is the empty object, and
every registered listener is invoked (once, in order) with the package name
and that empty value; listener outcomes are isolated, so nothing escapes. -/
theorem C7_invalid_json_dispatch (s pkg fromSpace : List Char)
    (hsplit : splitAtFirstSpace (pyStrip s) = some (pkg, fromSpace))
    (hne : pyStrip fromSpace ≠ [])
    (hbad : jsonLoads (pyStrip fromSpace) = none) :
    gmcpDecode s = (pkg, Json.obj .nil) ∧
    ∀ listeners, dispatchGmcp listeners s
      = listeners.map (fun listener => ((pkg, Json.obj .nil), listener pkg (Json.obj .nil))) := by
  have h : gmcpDecode s = (pkg, Json.obj .nil) := by
    simp only [gmcpDecode, hsplit]
    simp [hne, hbad]
  exact ⟨h, fun listeners => dispatchGmcp_eq listeners _ _ _ h⟩

theorem C7_invalid_json_dispatch_witness :
    gmcpDecode "Pkg \x7bbad".data = ("Pkg".data, Json.obj .nil) :=
  (C7_invalid_json_dispatch "Pkg \x7bbad".data "Pkg".data " \x7bbad".data
    (by decide) (by decide) (by decide)).1

/-- C8: alias expansion — empty input yields the empty string; an exact
table hit returns its replacement (taking precedence over any first-token
match); otherwise a first-token hit returns the replacement with the
argument remainder appended after one space when non-empty; otherwise the
input is returned unchanged. -/
theorem C8_alias_expansion (aliases : AliasTable) (s : List Char) :
    (s = [] → process_input aliases s = []) ∧
    (s ≠ [] → ∀ r, lookupAlias aliases s = some r → process_input aliases s = r) ∧
    (s ≠ [] → lookupAlias aliases s = none →
      ∀ r, lookupAlias aliases (pySplitOnceSpace s).1 = some r →
        process_input aliases s =
          (if (pySplitOnceSpace s).2 = [] then r else r ++ ' ' :: (pySplitOnceSpace s).2)) ∧
    (s ≠ [] → lookupAlias aliases s = none →
      lookupAlias aliases (pySplitOnceSpace s).1 = none →
      process_input aliases s = s) := by
  refine ⟨fun h => by simp [process_input, h], ?_, ?_, ?_⟩
  · intro hne r hr
    simp [process_input, hne, hr]
  · intro hne hmiss r hr
    by_cases hargs : (pySplitOnceSpace s).2 = [] <;>
      simp [process_input, hne, hmiss, hr, hargs]
  · intro hne hmiss hmiss2
    simp [process_input, hne, hmiss, hmiss2]

theorem C8_alias_expansion_witness :
    process_input [("k".data, "kill".data)] "k goblin".data = "kill goblin".data ∧
    process_input [("k".data, "kill".data)] "k".data = "kill".data ∧
    process_input [("k".data, "kill".data)] "kill".data = "kill".data := by
  refine ⟨?_, ?_, ?_⟩
  · have h := (C8_alias_expansion [("k".data, "kill".data)] "k goblin".data).2.2.1
      (by decide) (by decide) "kill".data (by decide)
    simpa using h
  · exact (C8_alias_expansion [("k".data, "kill".data)] "k".data).2.1
      (by decide) "kill".data (by decide)
  · exact (C8_alias_expansion [("k".data, "kill".data)] "kill".data).2.2.2
      (by decide) (by decide) (by decide)

/-- C9: SGR parameter code `0` resets the style register to the default
state — default foreground and background tags, bold and underline off —
regardless of the register reached by any prior code sequence. -/
theorem C9_sgr_zero_resets (st : StyleState) (codes : List Nat) :
    applyCode (applyCodes st codes) 0 = initialStyle :=
  rfl

/-- C10: `add_alias` with an empty command or replacement returns `False`
and leaves the table untouched with no persistence write; with both
non-empty it returns `True`, writes, and the table then maps the command to
the replacement. -/
theorem C10_add_alias_validation (t : AliasTable) (c r : List Char) :
    ((c = [] ∨ r = []) → add_alias t c r = ⟨false, t, false⟩) ∧
    (c ≠ [] → r ≠ [] →
      add_alias t c r = ⟨true, dictInsert t c r, true⟩ ∧
      lookupAlias (add_alias t c r).aliases c = some r) := by
  constructor
  · intro h
    simp [add_alias, h]
  · intro hc hr
    constructor
    · simp [add_alias, hc, hr]
    · simp [add_alias, hc, hr, lookupAlias_dictInsert]

theorem C10_add_alias_validation_witness :
    add_alias [] [] "kill".data = ⟨false, [], false⟩ ∧
    add_alias [] "k".data "kill".data = ⟨true, dictInsert [] "k".data "kill".data, true⟩ ∧
    lookupAlias (add_alias [] "k".data "kill".data).aliases "k".data = some "kill".data :=
  ⟨(C10_add_alias_validation [] [] "kill".data).1 (Or.inl rfl),
    ((C10_add_alias_validation [] "k".data "kill".data).2 (by decide) (by decide)).1,
    ((C10_add_alias_validation [] "k".data "kill".data).2 (by decide) (by decide)).2⟩

/-- C4 (counterexample): with the empty package name (which contains no
space) and value `{"a": 1}`, encode-then-decode does not return the
original pair — the serialized object itself is taken as the package name
and the value collapses to the empty object. -/
theorem C4_roundtrip_counterexample :
    ¬ ' ' ∈ ([] : List Char) ∧
    gmcpDecode (send_gmcp_content [] (Json.obj (.cons ['a'] (.num 1) .nil)))
      ≠ ([], Json.obj (.cons ['a'] (.num 1) .nil)) := by
  decide

/-- C4 (amended): for a non-empty package name containing no (ASCII)
whitespace character and a value other than `null`, `send_gmcp`'s
`f"\x7bpackage_name\x7d \x7bpayload_data\x7d"` encoding followed by
`_dispatch_gmcp_data`'s strip/split-at-first-space/parse decoding returns
the original package name and an equal structured value. -/
theorem C4_gmcp_roundtrip_amended (pkg : List Char) (v : Json)
    (hne : pkg ≠ []) (hws : ∀ c ∈ pkg, isPyWs c = false)
    (hnull : v ≠ Json.null) :
    gmcpDecode (send_gmcp_content pkg v) = (pkg, v) := by
  obtain ⟨c0, t0, hpkg0⟩ : ∃ c0 t0, pkg = c0 :: t0 := by
    cases pkg with
    | nil => exact absurd rfl hne
    | cons a b => exact ⟨a, b, rfl⟩
  have hsp : ' ' ∉ pkg := fun m => by
    have hx := hws ' ' m
    simp [isPyWs] at hx
  obtain ⟨cr, tr, hrev, hrws⟩ := dumps_revhead v
  obtain ⟨ch, th, hdh, -, hpws, -⟩ := dumps_head v
  have hcontent : send_gmcp_content pkg v = pkg ++ ' ' :: dumps v := by
    simp [send_gmcp_content, hnull]
  have hstrip : pyStrip (pkg ++ ' ' :: dumps v) = pkg ++ ' ' :: dumps v := by
    unfold pyStrip
    rw [pyRstrip_of_rev_head _ cr (tr ++ ' ' :: pkg.reverse) (by simp [hrev]) hrws]
    exact pyLstrip_of_head _ c0 (t0 ++ ' ' :: dumps v)
      (by rw [hpkg0, List.cons_append])
      (hws c0 (by rw [hpkg0]; exact List.mem_cons_self _ _))
  have hsplit := splitAtFirstSpace_append pkg (dumps v) hsp
  have hjson : pyStrip (' ' :: dumps v) = dumps v := by
    unfold pyStrip
    rw [pyRstrip_of_rev_head _ cr (tr ++ [' ']) (by simp [hrev]) hrws]
    unfold pyLstrip
    rw [List.dropWhile_cons, if_pos (by decide), hdh, List.dropWhile_cons,
      if_neg (by simp [hpws]), ← hdh]
  have hdne : ¬ dumps v = [] := by rw [hdh]; simp
  rw [hcontent]
  simp only [gmcpDecode]
  rw [hstrip, hsplit]
  dsimp only
  rw [hjson, if_neg hdne, jsonLoads_dumps v]

/-- C4 (amended, witness): the round trip evaluated at the package name
`"Chat"` and the value `7`. -/
theorem C4_gmcp_roundtrip_amended_witness :
    gmcpDecode (send_gmcp_content ['C', 'h', 'a', 't'] (Json.num 7))
      = (['C', 'h', 'a', 't'], Json.num 7) :=
  C4_gmcp_roundtrip_amended ['C', 'h', 'a', 't'] (Json.num 7)
    (by decide) (by decide) (by decide)

end PyMUD
